import Mathlib

/-! # DH visualizer: kinematic chain evaluation

A shallow embedding of the kinematic core of `script_v1.js`:
`dhToTransform`, `multiplyMatrices`, `getCumulativeTransform`,
`updateVisualization`, `updateEndEffectorInfo` and the handlers that edit the
global chain `dhParams`.

JavaScript numbers are modelled by an arbitrary field `α` (the statements about
"real" parameters are read at `α = ℝ`), and the 4x4 arrays by a record of four
rows of four numbers.  The functions of the host `Math` object are passed in as
a record `JsMath α`, so every definition below is executable at any field with
computable arithmetic.
-/

namespace DHVisualizer

/-- The members of the host `Math` object used by the script:
`Math.cos`, `Math.sin`, `Math.atan2`, `Math.sqrt` and `Math.PI`. -/
structure JsMath (α : Type) where
  cos : α → α
  sin : α → α
  atan2 : α → α → α
  sqrt : α → α
  PI : α

/-- One record of `dhParams`: `{ type, a, alpha, d, theta }`.  The field `type`
is a string in the script (`'revolute'` or `'prismatic'`). -/
structure Joint (α : Type) where
  type : String
  a : α
  alpha : α
  d : α
  theta : α

/-- A JavaScript array of four numbers, `[c0, c1, c2, c3]`. -/
structure Row4 (α : Type) where
  c0 : α
  c1 : α
  c2 : α
  c3 : α
  deriving DecidableEq, Repr

/-- A JavaScript array of four rows, `[r0, r1, r2, r3]`: the 4x4 arrays the
script builds and passes around. -/
structure Mat4 (α : Type) where
  r0 : Row4 α
  r1 : Row4 α
  r2 : Row4 α
  r3 : Row4 α
  deriving DecidableEq, Repr

section Arrays

variable {α : Type}

/-- The read `r[j]`. -/
def Row4.get (r : Row4 α) (j : Fin 4) : α :=
  match j with
  | 0 => r.c0
  | 1 => r.c1
  | 2 => r.c2
  | 3 => r.c3

/-- The write `r[j] = v`. -/
def Row4.set (r : Row4 α) (j : Fin 4) (v : α) : Row4 α :=
  match j with
  | 0 => { r with c0 := v }
  | 1 => { r with c1 := v }
  | 2 => { r with c2 := v }
  | 3 => { r with c3 := v }

/-- The read `m[i]`. -/
def Mat4.row (m : Mat4 α) (i : Fin 4) : Row4 α :=
  match i with
  | 0 => m.r0
  | 1 => m.r1
  | 2 => m.r2
  | 3 => m.r3

/-- The array `m` with its row `i` replaced. -/
def Mat4.setRow (m : Mat4 α) (i : Fin 4) (r : Row4 α) : Mat4 α :=
  match i with
  | 0 => { m with r0 := r }
  | 1 => { m with r1 := r }
  | 2 => { m with r2 := r }
  | 3 => { m with r3 := r }

/-- The read `m[i][j]`. -/
def Mat4.get (m : Mat4 α) (i j : Fin 4) : α := (m.row i).get j

end Arrays

section Core

variable {α : Type} [Field α]

/-- The script's `dhToTransform(a, alpha, d, theta)` (lines 278-290). -/
def dhToTransform (M : JsMath α) (a alpha d theta : α) : Mat4 α :=
  let cosTheta := M.cos theta
  let sinTheta := M.sin theta
  let cosAlpha := M.cos alpha
  let sinAlpha := M.sin alpha
  ⟨⟨cosTheta, -sinTheta * cosAlpha, sinTheta * sinAlpha, a * cosTheta⟩,
   ⟨sinTheta, cosTheta * cosAlpha, -cosTheta * sinAlpha, a * sinTheta⟩,
   ⟨0, sinAlpha, cosAlpha, d⟩,
   ⟨0, 0, 0, 1⟩⟩

/-- The statement `result[i][j] += v` on a 4x4 array. -/
def addAt (result : Mat4 α) (i j : Fin 4) (v : α) : Mat4 α :=
  result.setRow i ((result.row i).set j ((result.row i).get j + v))

/-- The script's `multiplyMatrices(a, b)` (lines 293-305): `result` starts as the
zero array and the three nested loops over `0..3` run
`result[i][j] += a[i][k] * b[k][j]`. -/
def multiplyMatrices (a b : Mat4 α) : Mat4 α :=
  let result : Mat4 α := ⟨⟨0, 0, 0, 0⟩, ⟨0, 0, 0, 0⟩, ⟨0, 0, 0, 0⟩, ⟨0, 0, 0, 0⟩⟩
  ([0, 1, 2, 3] : List (Fin 4)).foldl (fun result i =>
    ([0, 1, 2, 3] : List (Fin 4)).foldl (fun result j =>
      ([0, 1, 2, 3] : List (Fin 4)).foldl (fun result k =>
        addAt result i j (a.get i k * b.get k j)) result) result) result

/-- The array literal both `updateVisualization` (lines 169-174) and
`getCumulativeTransform` (lines 309-314) start from. -/
def identityTransform : Mat4 α :=
  ⟨⟨1, 0, 0, 0⟩, ⟨0, 1, 0, 0⟩, ⟨0, 0, 1, 0⟩, ⟨0, 0, 0, 1⟩⟩

/-- The script's `getCumulativeTransform(jointIndex)` (lines 308-323), with the
global `dhParams` as an argument.  The loop runs `i = 0 .. jointIndex`; reading
`param.a` of an absent `dhParams[i]` throws, which is `none` here. -/
def getCumulativeTransform (M : JsMath α) (dhParams : List (Joint α))
    (jointIndex : Nat) : Option (Mat4 α) :=
  (List.range (jointIndex + 1)).foldlM (fun transform i => do
    let param ← dhParams[i]?
    let jointTransform := dhToTransform M param.a param.alpha param.d param.theta
    pure (multiplyMatrices transform jointTransform)) identityTransform

/-- What `updateEndEffectorInfo` writes to the page, before the `toFixed`
formatting of each number: the position, the orientation and the 4x4 matrix. -/
structure EndEffectorInfo (α : Type) where
  x : α
  y : α
  z : α
  roll : α
  pitch : α
  yaw : α
  matrix : Mat4 α

/-- The script's `updateEndEffectorInfo(transform)` (lines 326-356).  The
`toFixed(2)` and `toFixed(3)` calls only format the numbers for display and are
left out. -/
def updateEndEffectorInfo (M : JsMath α) (transform : Mat4 α) : EndEffectorInfo α :=
  let x := transform.get 0 3
  let y := transform.get 1 3
  let z := transform.get 2 3
  let roll := M.atan2 (transform.get 2 1) (transform.get 2 2)
  let pitch := M.atan2 (-transform.get 2 0)
    (M.sqrt (transform.get 2 1 ^ 2 + transform.get 2 2 ^ 2))
  let yaw := M.atan2 (transform.get 1 0) (transform.get 0 0)
  { x := x, y := y, z := z, roll := roll, pitch := pitch, yaw := yaw, matrix := transform }

/-- The calls `updateVisualization` makes to the drawing and display functions,
with their arguments; `updateEndEffectorInfo` is recorded with what it
displays. -/
inductive SceneCall (α : Type) where
  | addCoordinateAxes (x y z : α) (label : String)
  | drawLink (x1 y1 z1 x2 y2 z2 : α)
  | drawJoint (x y z : α) (type : String)
  | drawDHParametersVisualization (index : Nat) (param : Joint α) (transform : Mat4 α)
  | updateEndEffectorInfo (info : EndEffectorInfo α)

/-- The variables of `updateVisualization` that live across loop iterations:
`currentTransform` and the calls made so far. -/
structure VizState (α : Type) where
  currentTransform : Mat4 α
  calls : List (SceneCall α)

/-- The state of `updateVisualization` when the loop is entered (lines 161-174):
the groups are cleared, the base frame is drawn, `currentTransform` is the
identity array. -/
def updateVisualizationInit : VizState α :=
  { currentTransform := identityTransform
    calls := [SceneCall.addCoordinateAxes 0 0 0 "Base"] }

/-- One iteration of the loop of `updateVisualization` (lines 177-212) for the
index `i`; `showCommonNormal` is the state of the `show-common-normal`
checkbox. -/
def updateVisualizationStep (M : JsMath α) (dhParams : List (Joint α))
    (showCommonNormal : Bool) (s : VizState α) (i : Nat) : Option (VizState α) := do
  let param ← dhParams[i]?
  let jointTransform := dhToTransform M param.a param.alpha param.d param.theta
  let currentTransform := multiplyMatrices s.currentTransform jointTransform
  let x := currentTransform.get 0 3
  let y := currentTransform.get 1 3
  let z := currentTransform.get 2 3
  let calls ←
    if i > 0 then do
      let prevTransform ← getCumulativeTransform M dhParams (i - 1)
      let prevX := prevTransform.get 0 3
      let prevY := prevTransform.get 1 3
      let prevZ := prevTransform.get 2 3
      pure (s.calls ++ [SceneCall.drawLink prevX prevY prevZ x y z])
    else pure s.calls
  let calls := calls ++ [SceneCall.drawJoint x y z param.type]
  let calls := calls ++ [SceneCall.addCoordinateAxes x y z ("Frame " ++ toString (i + 1))]
  let calls :=
    if showCommonNormal then
      calls ++ [SceneCall.drawDHParametersVisualization i param currentTransform]
    else calls
  pure { currentTransform := currentTransform, calls := calls }

/-- The loop of `updateVisualization` run for the indices `0 .. n-1`. -/
def updateVisualizationLoop (M : JsMath α) (dhParams : List (Joint α))
    (showCommonNormal : Bool) (n : Nat) : Option (VizState α) :=
  (List.range n).foldlM (updateVisualizationStep M dhParams showCommonNormal)
    updateVisualizationInit

/-- The script's `updateVisualization()` (lines 160-216), with the global
`dhParams` and the checkbox as arguments: the loop over
`i < dhParams.length`, then the call of `updateEndEffectorInfo` on the final
`currentTransform`.  The result is the sequence of calls made. -/
def updateVisualization (M : JsMath α) (dhParams : List (Joint α))
    (showCommonNormal : Bool) : Option (List (SceneCall α)) := do
  let s ← updateVisualizationLoop M dhParams showCommonNormal dhParams.length
  pure (s.calls ++ [SceneCall.updateEndEffectorInfo (updateEndEffectorInfo M s.currentTransform)])

/-- The `(start, end)` pairs of the `drawLink` calls of a sequence of calls, in
order. -/
def linkSegments : List (SceneCall α) → List ((α × α × α) × (α × α × α))
  | [] => []
  | SceneCall.drawLink x1 y1 z1 x2 y2 z2 :: cs => ((x1, y1, z1), (x2, y2, z2)) :: linkSegments cs
  | _ :: cs => linkSegments cs

/-- The positions of the `drawJoint` calls of a sequence of calls, in order. -/
def jointPositions : List (SceneCall α) → List (α × α × α)
  | [] => []
  | SceneCall.drawJoint x y z _ :: cs => (x, y, z) :: jointPositions cs
  | _ :: cs => jointPositions cs

/-- What the `updateEndEffectorInfo` calls of a sequence of calls display, in
order. -/
def endEffectorReports : List (SceneCall α) → List (EndEffectorInfo α)
  | [] => []
  | SceneCall.updateEndEffectorInfo info :: cs => info :: endEffectorReports cs
  | _ :: cs => endEffectorReports cs

/-- The origin `(T[0][3], T[1][3], T[2][3])` of a frame. -/
def origin (T : Mat4 α) : α × α × α := (T.get 0 3, T.get 1 3, T.get 2 3)

/-! ### The global chain and its handlers -/

/-- The globals the handlers below read and write (lines 4-7). -/
structure AppState (α : Type) where
  dhParams : List (Joint α)
  isPlaying : Bool
  currentStep : Nat

/-- The globals as declared at load time (lines 4-7). -/
def initialState : AppState α :=
  { dhParams := [], isPlaying := false, currentStep := 0 }

/-- The script's `init()` (lines 11-32), as far as the globals go. -/
def init (s : AppState α) : AppState α :=
  { s with dhParams :=
      [ { type := "revolute", a := 1, alpha := 0, d := 0, theta := 0 },
        { type := "revolute", a := 1, alpha := 0, d := 0, theta := 0 } ] }

/-- The script's `addJoint()` (lines 453-457). -/
def addJoint (dhParams : List (Joint α)) : List (Joint α) :=
  dhParams ++ [{ type := "revolute", a := 1, alpha := 0, d := 0, theta := 0 }]

/-- The script's `removeJoint()` (lines 460-466). -/
def removeJoint (dhParams : List (Joint α)) : List (Joint α) :=
  if dhParams.length > 1 then dhParams.dropLast else dhParams

/-- The script's `handlePresetChange(e)` (lines 409-450), `preset` being
`e.target.value`. -/
def handlePresetChange (M : JsMath α) (preset : String) (dhParams : List (Joint α)) :
    List (Joint α) :=
  if preset = "2link" then
    [ { type := "revolute", a := 1, alpha := 0, d := 0, theta := 0.5 },
      { type := "revolute", a := 1, alpha := 0, d := 0, theta := 0.5 } ]
  else if preset = "3r" then
    [ { type := "revolute", a := 0, alpha := -M.PI / 2, d := 0.5, theta := 0 },
      { type := "revolute", a := 1, alpha := 0, d := 0, theta := 0 },
      { type := "revolute", a := 1, alpha := 0, d := 0, theta := 0 } ]
  else if preset = "scara" then
    [ { type := "revolute", a := 1, alpha := 0, d := 0.5, theta := 0 },
      { type := "revolute", a := 1, alpha := M.PI, d := 0, theta := 0 },
      { type := "prismatic", a := 0, alpha := 0, d := 0, theta := 0 } ]
  else if preset = "6dof" then
    [ { type := "revolute", a := 0, alpha := -M.PI / 2, d := 0.3, theta := 0 },
      { type := "revolute", a := 0.5, alpha := 0, d := 0, theta := 0 },
      { type := "revolute", a := 0.5, alpha := -M.PI / 2, d := 0, theta := 0 },
      { type := "revolute", a := 0, alpha := M.PI / 2, d := 0.5, theta := 0 },
      { type := "revolute", a := 0, alpha := -M.PI / 2, d := 0, theta := 0 },
      { type := "revolute", a := 0, alpha := 0, d := 0.2, theta := 0 } ]
  else dhParams

/-- The values of the `data-param` attribute that `buildDHTable` writes on the
number inputs (lines 116-125). -/
inductive ParamName where
  | a
  | alpha
  | d
  | theta
  deriving DecidableEq, Repr

/-- The assignment `joint[param] = value`. -/
def Joint.set (joint : Joint α) (param : ParamName) (value : α) : Joint α :=
  match param with
  | ParamName.a => { joint with a := value }
  | ParamName.alpha => { joint with alpha := value }
  | ParamName.d => { joint with d := value }
  | ParamName.theta => { joint with theta := value }

/-- The script's `handleParamChange(e)` (lines 143-150): `index`, `param` and
`value` are read from the input element.  An absent `dhParams[index]` makes the
assignment throw (`none`), with `dhParams` untouched. -/
def handleParamChange (index : Nat) (param : ParamName) (value : α)
    (dhParams : List (Joint α)) : Option (List (Joint α)) := do
  let joint ← dhParams[index]?
  pure (dhParams.set index (joint.set param value))

/-- The script's `handleJointTypeChange(e)` (lines 153-157). -/
def handleJointTypeChange (index : Nat) (value : String)
    (dhParams : List (Joint α)) : Option (List (Joint α)) := do
  let joint ← dhParams[index]?
  pure (dhParams.set index { joint with type := value })

/-- One frame of the script's `animate()` (lines 747-767). -/
def animate (s : AppState α) : AppState α :=
  if s.isPlaying then
    { s with dhParams := s.dhParams.map fun param =>
        if param.type = "revolute" then { param with theta := param.theta + 0.01 }
        else if param.type = "prismatic" then { param with d := param.d + 0.01 }
        else param }
  else s

/-- The handlers that can run once `init` has installed them. -/
inductive Event (α : Type) where
  | addJoint
  | removeJoint
  | handlePresetChange (preset : String)
  | handleParamChange (index : Nat) (param : ParamName) (value : α)
  | handleJointTypeChange (index : Nat) (value : String)
  | animate
  | playAnimation
  | pauseAnimation
  | resetAnimation

/-- The effect of one handler on the globals.  A handler that throws leaves them
as they were. -/
def step (M : JsMath α) (s : AppState α) : Event α → AppState α
  | Event.addJoint => { s with dhParams := addJoint s.dhParams }
  | Event.removeJoint => { s with dhParams := removeJoint s.dhParams }
  | Event.handlePresetChange preset =>
      { s with dhParams := handlePresetChange M preset s.dhParams }
  | Event.handleParamChange index param value =>
      match handleParamChange index param value s.dhParams with
      | some dhParams => { s with dhParams := dhParams }
      | none => s
  | Event.handleJointTypeChange index value =>
      match handleJointTypeChange index value s.dhParams with
      | some dhParams => { s with dhParams := dhParams }
      | none => s
  | Event.animate => animate s
  | Event.playAnimation => { s with isPlaying := true }
  | Event.pauseAnimation => { s with isPlaying := false }
  | Event.resetAnimation => { s with isPlaying := false, currentStep := 0 }

/-- The globals after `init` and then the given handlers, in order. -/
def run (M : JsMath α) (events : List (Event α)) : AppState α :=
  events.foldl (step M) (init initialState)

/-! ### Definitions the statements are written with -/

/-- A 4x4 array read as a matrix of Mathlib, entry `(i, j)` being `m[i][j]`. -/
def Mat4.toMatrix (m : Mat4 α) : Matrix (Fin 4) (Fin 4) α :=
  Matrix.of fun i j => m.get i j

/-- The 4x4 array holding the entries of a matrix. -/
def Mat4.ofMatrix (A : Matrix (Fin 4) (Fin 4) α) : Mat4 α :=
  ⟨⟨A 0 0, A 0 1, A 0 2, A 0 3⟩,
   ⟨A 1 0, A 1 1, A 1 2, A 1 3⟩,
   ⟨A 2 0, A 2 1, A 2 2, A 2 3⟩,
   ⟨A 3 0, A 3 1, A 3 2, A 3 3⟩⟩

/-- The local transform `A_k` of one record, as a matrix: what both loops pass
to `multiplyMatrices` as `jointTransform`. -/
def Joint.transform (M : JsMath α) (param : Joint α) : Matrix (Fin 4) (Fin 4) α :=
  (dhToTransform M param.a param.alpha param.d param.theta).toMatrix

/-- The ordered product `I * A_0 * A_1 * ... * A_i` of the specification, written
with the matrix product of Mathlib (not with `multiplyMatrices`). -/
def chainProduct (M : JsMath α) (chain : List (Joint α)) (i : Nat) :
    Matrix (Fin 4) (Fin 4) α :=
  ((chain.take (i + 1)).map (Joint.transform M)).foldl (fun T A => T * A) 1

/-- The product `I * A_0 * ... * A_(n-1)` over the first `n` joints (the identity
for `n = 0`); `chainProduct M chain i` is `prefixProduct M chain (i + 1)`. -/
def prefixProduct (M : JsMath α) (chain : List (Joint α)) (n : Nat) :
    Matrix (Fin 4) (Fin 4) α :=
  ((chain.take n).map (Joint.transform M)).foldl (fun T A => T * A) 1

/-- The composition with the operands exchanged, `T_i = A_i * T_{i-1}`, that the
specification compares `getCumulativeTransform` with.  It is not in the script:
it is the loop of `getCumulativeTransform` with the two arguments of
`multiplyMatrices` swapped. -/
def getCumulativeTransformSwapped (M : JsMath α) (dhParams : List (Joint α))
    (jointIndex : Nat) : Option (Mat4 α) :=
  (List.range (jointIndex + 1)).foldlM (fun transform i => do
    let param ← dhParams[i]?
    let jointTransform := dhToTransform M param.a param.alpha param.d param.theta
    pure (multiplyMatrices jointTransform transform)) identityTransform

/-- The chain of two revolute joints `(a₁, alpha = 0, d = 0, θ₁)`,
`(a₂, alpha = 0, d = 0, θ₂)` that the planar statements are about. -/
def twoLinkPlanar (a₁ a₂ θ₁ θ₂ : α) : List (Joint α) :=
  [ { type := "revolute", a := a₁, alpha := 0, d := 0, theta := θ₁ },
    { type := "revolute", a := a₂, alpha := 0, d := 0, theta := θ₂ } ]

/-- The four numbers `(a, alpha, d, theta)` of a record, without its `type`. -/
def Joint.params (param : Joint α) : α × α × α × α :=
  (param.a, param.alpha, param.d, param.theta)

/-- The transforms passed to `drawDHParametersVisualization` in a sequence of
calls, in order: with the checkbox on, the cumulative transform the loop of
`updateVisualization` produced for each joint. -/
def frameTransforms : List (SceneCall α) → List (Mat4 α)
  | [] => []
  | SceneCall.drawDHParametersVisualization _ _ transform :: cs => transform :: frameTransforms cs
  | _ :: cs => frameTransforms cs

/-- The squared Euclidean distance between two points. -/
def sqDist (p q : α × α × α) : α :=
  (q.1 - p.1) ^ 2 + (q.2.1 - p.2.1) ^ 2 + (q.2.2 - p.2.2) ^ 2

/-- The value of `Math.PI`: the double nearest to pi, `884279719003555 / 2 ^ 48`
(`3.141592653589793`). -/
def doublePI : α := 884279719003555 / 281474976710656

/-- Two points agree within `tol` in every coordinate. -/
def withinTol (tol : ℝ) (p q : ℝ × ℝ × ℝ) : Prop :=
  |p.1 - q.1| ≤ tol ∧ |p.2.1 - q.2.1| ≤ tol ∧ |p.2.2 - q.2.2| ≤ tol

/-- The upper-left 3x3 block of a 4x4 matrix. -/
def rotationBlock (T : Matrix (Fin 4) (Fin 4) α) : Matrix (Fin 3) (Fin 3) α :=
  !![T 0 0, T 0 1, T 0 2;
     T 1 0, T 1 1, T 1 2;
     T 2 0, T 2 1, T 2 2]

/-- A rigid-body pose: bottom row `[0, 0, 0, 1]` and a rotation as upper-left
block (`Rᵀ * R = I` and `det R = 1`). -/
def IsRigid (T : Matrix (Fin 4) (Fin 4) α) : Prop :=
  (T 3 0 = 0 ∧ T 3 1 = 0 ∧ T 3 2 = 0 ∧ T 3 3 = 1) ∧
    (rotationBlock T).transpose * rotationBlock T = 1 ∧ (rotationBlock T).det = 1

end Core

/-! ## Lemmas on the matrix primitives -/

section Lemmas

variable {α : Type} [Field α]

omit [Field α] in
theorem toMatrix_apply (m : Mat4 α) (i j : Fin 4) : m.toMatrix i j = m.get i j := rfl

omit [Field α] in
theorem toMatrix_ofMatrix (A : Matrix (Fin 4) (Fin 4) α) : (Mat4.ofMatrix A).toMatrix = A := by
  ext i j
  fin_cases i <;> fin_cases j <;> rfl

omit [Field α] in
theorem ofMatrix_toMatrix (m : Mat4 α) : Mat4.ofMatrix m.toMatrix = m := rfl

omit [Field α] in
theorem ofMatrix_injective {A B : Matrix (Fin 4) (Fin 4) α}
    (h : Mat4.ofMatrix A = Mat4.ofMatrix B) : A = B := by
  rw [← toMatrix_ofMatrix A, ← toMatrix_ofMatrix B, h]

theorem addAt_get (r : Mat4 α) (i j i' j' : Fin 4) (v : α) :
    (addAt r i j v).get i' j' = if i' = i ∧ j' = j then r.get i' j' + v else r.get i' j' := by
  fin_cases i <;> fin_cases j <;> fin_cases i' <;> fin_cases j' <;> rfl

/-- The three nested loops of `multiplyMatrices` compute the matrix product. -/
theorem multiplyMatrices_toMatrix (a b : Mat4 α) :
    (multiplyMatrices a b).toMatrix = a.toMatrix * b.toMatrix := by
  ext i j
  simp only [multiplyMatrices, List.foldl_cons, List.foldl_nil, toMatrix_apply, addAt_get,
    Matrix.mul_apply, Fin.sum_univ_four]
  fin_cases i <;> fin_cases j <;> simp [add_assoc, Mat4.get, Mat4.row, Row4.get]

theorem multiplyMatrices_eq (a b : Mat4 α) :
    multiplyMatrices a b = Mat4.ofMatrix (a.toMatrix * b.toMatrix) := by
  rw [← multiplyMatrices_toMatrix, ofMatrix_toMatrix]

theorem identityTransform_toMatrix : (identityTransform : Mat4 α).toMatrix = 1 := by
  ext i j
  fin_cases i <;> fin_cases j <;> rfl

theorem identityTransform_eq : (identityTransform : Mat4 α) = Mat4.ofMatrix 1 := by
  rw [← identityTransform_toMatrix, ofMatrix_toMatrix]

theorem chainProduct_eq_prefixProduct (M : JsMath α) (chain : List (Joint α)) (i : Nat) :
    chainProduct M chain i = prefixProduct M chain (i + 1) := rfl

theorem prefixProduct_zero (M : JsMath α) (chain : List (Joint α)) :
    prefixProduct M chain 0 = 1 := by
  simp [prefixProduct]

theorem prefixProduct_succ (M : JsMath α) (chain : List (Joint α)) (n : Nat)
    (h : n < chain.length) :
    prefixProduct M chain (n + 1) = prefixProduct M chain n * (chain[n]).transform M := by
  unfold prefixProduct
  rw [List.take_succ, List.getElem?_eq_getElem h]
  simp only [Option.toList, List.map_append, List.map_cons, List.map_nil, List.foldl_append,
    List.foldl_cons, List.foldl_nil]

/-- The loop of `getCumulativeTransform` after `n` iterations. -/
theorem getCumulativeTransform_loop (M : JsMath α) (chain : List (Joint α)) (n : Nat)
    (h : n ≤ chain.length) :
    (List.range n).foldlM (fun transform i => do
      let param ← chain[i]?
      let jointTransform := dhToTransform M param.a param.alpha param.d param.theta
      pure (multiplyMatrices transform jointTransform)) (identityTransform : Mat4 α)
      = some (Mat4.ofMatrix (prefixProduct M chain n)) := by
  induction n with
  | zero => simp [prefixProduct_zero, identityTransform_eq]
  | succ n ih =>
    have hn : n < chain.length := h
    rw [List.range_succ, List.foldlM_append, ih (Nat.le_of_lt hn)]
    simp [List.getElem?_eq_getElem hn, multiplyMatrices_eq, toMatrix_ofMatrix,
      prefixProduct_succ M chain n hn, Joint.transform]

theorem getCumulativeTransform_eq (M : JsMath α) (chain : List (Joint α)) (i : Nat)
    (h : i < chain.length) :
    getCumulativeTransform M chain i = some (Mat4.ofMatrix (prefixProduct M chain (i + 1))) :=
  getCumulativeTransform_loop M chain (i + 1) h

/-! ## Lemmas on the loop of `updateVisualization` -/

omit [Field α] in
theorem linkSegments_append (l₁ l₂ : List (SceneCall α)) :
    linkSegments (l₁ ++ l₂) = linkSegments l₁ ++ linkSegments l₂ := by
  induction l₁ with
  | nil => rfl
  | cons c cs ih => cases c <;> simp [linkSegments, ih]

omit [Field α] in
theorem jointPositions_append (l₁ l₂ : List (SceneCall α)) :
    jointPositions (l₁ ++ l₂) = jointPositions l₁ ++ jointPositions l₂ := by
  induction l₁ with
  | nil => rfl
  | cons c cs ih => cases c <;> simp [jointPositions, ih]

omit [Field α] in
theorem endEffectorReports_append (l₁ l₂ : List (SceneCall α)) :
    endEffectorReports (l₁ ++ l₂) = endEffectorReports l₁ ++ endEffectorReports l₂ := by
  induction l₁ with
  | nil => rfl
  | cons c cs ih => cases c <;> simp [endEffectorReports, ih]

/-- One iteration of the loop of `updateVisualization`, for an index inside the
chain. -/
theorem updateVisualizationStep_eq (M : JsMath α) (chain : List (Joint α)) (b : Bool)
    (s : VizState α) (i : Nat) (h : i < chain.length) :
    ∃ s', updateVisualizationStep M chain b s i = some s' ∧
      s'.currentTransform =
        Mat4.ofMatrix (s.currentTransform.toMatrix * (chain[i]).transform M) ∧
      linkSegments s'.calls = linkSegments s.calls ++
        (if i > 0 then
          [(origin (Mat4.ofMatrix (prefixProduct M chain i)), origin s'.currentTransform)]
          else []) ∧
      jointPositions s'.calls = jointPositions s.calls ++ [origin s'.currentTransform] ∧
      endEffectorReports s'.calls = endEffectorReports s.calls := by
  rcases Nat.eq_zero_or_pos i with h0 | hpos
  · subst h0
    cases b <;>
      simp [updateVisualizationStep, List.getElem?_eq_getElem h, multiplyMatrices_eq,
        Joint.transform, linkSegments_append, jointPositions_append, endEffectorReports_append,
        linkSegments, jointPositions, endEffectorReports, origin]
  · have hprev : getCumulativeTransform M chain (i - 1) =
        some (Mat4.ofMatrix (prefixProduct M chain i)) := by
      have := getCumulativeTransform_eq M chain (i - 1) (by omega)
      rwa [Nat.sub_add_cancel hpos] at this
    cases b <;>
      simp [updateVisualizationStep, List.getElem?_eq_getElem h, multiplyMatrices_eq,
        Joint.transform, linkSegments_append, jointPositions_append, endEffectorReports_append,
        linkSegments, jointPositions, endEffectorReports, origin, hpos, hprev]

/-- The loop of `updateVisualization` after `n` iterations: the running
transform is the product over the first `n` joints, a joint was drawn at every
frame origin, a link between every two consecutive frame origins, and the
end-effector display has not been touched. -/
theorem updateVisualizationLoop_eq (M : JsMath α) (chain : List (Joint α)) (b : Bool) (n : Nat)
    (h : n ≤ chain.length) :
    ∃ s, updateVisualizationLoop M chain b n = some s ∧
      s.currentTransform = Mat4.ofMatrix (prefixProduct M chain n) ∧
      linkSegments s.calls = (List.range (n - 1)).map (fun i =>
        (origin (Mat4.ofMatrix (prefixProduct M chain (i + 1))),
          origin (Mat4.ofMatrix (prefixProduct M chain (i + 2))))) ∧
      jointPositions s.calls = (List.range n).map (fun i =>
        origin (Mat4.ofMatrix (prefixProduct M chain (i + 1)))) ∧
      endEffectorReports s.calls = [] := by
  induction n with
  | zero =>
    refine ⟨updateVisualizationInit, rfl, ?_, rfl, rfl, rfl⟩
    simp [updateVisualizationInit, prefixProduct_zero, identityTransform_eq]
  | succ n ih =>
    have hn : n < chain.length := h
    obtain ⟨s, hs, hT, hL, hJ, hE⟩ := ih (Nat.le_of_lt hn)
    obtain ⟨s', hs', hT', hL', hJ', hE'⟩ := updateVisualizationStep_eq M chain b s n hn
    have hT'' : s'.currentTransform = Mat4.ofMatrix (prefixProduct M chain (n + 1)) := by
      rw [hT', hT, toMatrix_ofMatrix, prefixProduct_succ M chain n hn]
    refine ⟨s', ?_, hT'', ?_, ?_, ?_⟩
    · unfold updateVisualizationLoop at hs ⊢
      rw [List.range_succ, List.foldlM_append, hs]
      simpa using hs'
    · rw [hL', hL, hT'']
      rcases Nat.eq_zero_or_pos n with h0 | hpos
      · subst h0; simp
      · obtain ⟨m, rfl⟩ : ∃ m, n = m + 1 := ⟨n - 1, by omega⟩
        simp [List.range_succ]
    · rw [hJ', hJ, hT'']
      simp [List.range_succ]
    · rw [hE', hE]

/-- The whole of `updateVisualization` returns, and its calls are those of the
loop followed by the one call of `updateEndEffectorInfo`. -/
theorem updateVisualization_eq (M : JsMath α) (chain : List (Joint α)) (b : Bool) :
    ∃ calls, updateVisualization M chain b = some calls ∧
      linkSegments calls = (List.range (chain.length - 1)).map (fun i =>
        (origin (Mat4.ofMatrix (prefixProduct M chain (i + 1))),
          origin (Mat4.ofMatrix (prefixProduct M chain (i + 2))))) ∧
      jointPositions calls = (List.range chain.length).map (fun i =>
        origin (Mat4.ofMatrix (prefixProduct M chain (i + 1)))) ∧
      endEffectorReports calls =
        [updateEndEffectorInfo M (Mat4.ofMatrix (prefixProduct M chain chain.length))] := by
  obtain ⟨s, hs, hT, hL, hJ, hE⟩ := updateVisualizationLoop_eq M chain b chain.length le_rfl
  refine ⟨s.calls ++ [SceneCall.updateEndEffectorInfo (updateEndEffectorInfo M s.currentTransform)],
    by simp [updateVisualization, hs], ?_, ?_, ?_⟩
  · simp [linkSegments_append, linkSegments, hL]
  · simp [jointPositions_append, jointPositions, hJ]
  · simp [endEffectorReports_append, endEffectorReports, hE, hT]

/-! ## Lemmas on rigid-body poses -/

omit [Field α] in
theorem rotationBlock_toMatrix (m : Mat4 α) :
    rotationBlock m.toMatrix =
      !![m.r0.c0, m.r0.c1, m.r0.c2;
         m.r1.c0, m.r1.c1, m.r1.c2;
         m.r2.c0, m.r2.c1, m.r2.c2] := rfl

theorem rotationBlock_mul (A B : Matrix (Fin 4) (Fin 4) α)
    (hB : B 3 0 = 0 ∧ B 3 1 = 0 ∧ B 3 2 = 0 ∧ B 3 3 = 1) :
    rotationBlock (A * B) = rotationBlock A * rotationBlock B := by
  obtain ⟨h0, h1, h2, _⟩ := hB
  ext i j
  fin_cases i <;> fin_cases j <;>
    simp [rotationBlock, Matrix.mul_apply, Fin.sum_univ_four, Fin.sum_univ_three, h0, h1, h2]

theorem rotationBlock_one : rotationBlock (1 : Matrix (Fin 4) (Fin 4) α) = 1 := by
  ext i j
  fin_cases i <;> fin_cases j <;> rfl

theorem IsRigid.mul {A B : Matrix (Fin 4) (Fin 4) α} (hA : IsRigid A) (hB : IsRigid B) :
    IsRigid (A * B) := by
  obtain ⟨⟨a0, a1, a2, a3⟩, hAo, hAd⟩ := hA
  obtain ⟨⟨b0, b1, b2, b3⟩, hBo, hBd⟩ := hB
  refine ⟨?_, ?_, ?_⟩
  · simp [Matrix.mul_apply, Fin.sum_univ_four, a0, a1, a2, a3, b0, b1, b2, b3]
  · rw [rotationBlock_mul A B ⟨b0, b1, b2, b3⟩, Matrix.transpose_mul, Matrix.mul_assoc,
      ← Matrix.mul_assoc _ (rotationBlock A), hAo, Matrix.one_mul, hBo]
  · rw [rotationBlock_mul A B ⟨b0, b1, b2, b3⟩, Matrix.det_mul, hAd, hBd, one_mul]

theorem IsRigid.one : IsRigid (1 : Matrix (Fin 4) (Fin 4) α) := by
  refine ⟨by simp, ?_, ?_⟩
  · rw [rotationBlock_one]; simp
  · rw [rotationBlock_one]; simp

theorem rotationBlock_dhToTransform (M : JsMath α) (a alpha d theta : α) :
    rotationBlock (dhToTransform M a alpha d theta).toMatrix =
      !![M.cos theta, -M.sin theta * M.cos alpha, M.sin theta * M.sin alpha;
         M.sin theta, M.cos theta * M.cos alpha, -M.cos theta * M.sin alpha;
         0, M.sin alpha, M.cos alpha] := rfl

/-- A single-joint transform is a rigid-body pose as soon as the host's cosine
and sine satisfy the Pythagorean identity at `theta` and at `alpha`. -/
theorem dhToTransform_isRigid (M : JsMath α) (a alpha d theta : α)
    (hθ : M.cos theta ^ 2 + M.sin theta ^ 2 = 1) (hα : M.cos alpha ^ 2 + M.sin alpha ^ 2 = 1) :
    IsRigid (dhToTransform M a alpha d theta).toMatrix := by
  refine ⟨⟨rfl, rfl, rfl, rfl⟩, ?_, ?_⟩
  · rw [rotationBlock_dhToTransform]
    ext i j
    simp only [Matrix.mul_apply, Matrix.transpose_apply, Fin.sum_univ_three]
    fin_cases i <;> fin_cases j <;> simp [Matrix.one_apply] <;>
      first
      | ring1
      | linear_combination hθ
      | linear_combination (M.cos alpha) ^ 2 * hθ + hα
      | linear_combination (M.sin alpha) ^ 2 * hθ + hα
      | linear_combination (-(M.cos alpha * M.sin alpha)) * hθ
  · rw [rotationBlock_dhToTransform, Matrix.det_fin_three]
    simp
    linear_combination (M.cos theta ^ 2 + M.sin theta ^ 2) * hα + hθ

theorem prefixProduct_isRigid (M : JsMath α) (chain : List (Joint α))
    (hM : ∀ t, M.cos t ^ 2 + M.sin t ^ 2 = 1) (n : Nat) (h : n ≤ chain.length) :
    IsRigid (prefixProduct M chain n) := by
  induction n with
  | zero => rw [prefixProduct_zero]; exact IsRigid.one
  | succ n ih =>
    have hn : n < chain.length := h
    rw [prefixProduct_succ M chain n hn]
    exact (ih (Nat.le_of_lt hn)).mul (dhToTransform_isRigid M _ _ _ _ (hM _) (hM _))

/-! ## Lemmas on the composition with exchanged operands -/

theorem foldl_swapped_eq (l : List (Matrix (Fin 4) (Fin 4) α)) (T : Matrix (Fin 4) (Fin 4) α) :
    l.foldl (fun T A => A * T) T = l.reverse.prod * T := by
  induction l generalizing T with
  | nil => simp
  | cons A l ih => simp [ih, Matrix.mul_assoc]

theorem foldl_forward_eq (l : List (Matrix (Fin 4) (Fin 4) α)) (T : Matrix (Fin 4) (Fin 4) α) :
    l.foldl (fun T A => T * A) T = T * l.prod := by
  induction l generalizing T with
  | nil => simp
  | cons A l ih => simp [ih, Matrix.mul_assoc]

theorem prefixProduct_eq_prod (M : JsMath α) (chain : List (Joint α)) (n : Nat) :
    prefixProduct M chain n = ((chain.take n).map (Joint.transform M)).prod := by
  simp [prefixProduct, foldl_forward_eq]

/-- The loop of `getCumulativeTransformSwapped` after `n` iterations. -/
theorem getCumulativeTransformSwapped_loop (M : JsMath α) (chain : List (Joint α)) (n : Nat)
    (h : n ≤ chain.length) :
    (List.range n).foldlM (fun transform i => do
      let param ← chain[i]?
      let jointTransform := dhToTransform M param.a param.alpha param.d param.theta
      pure (multiplyMatrices jointTransform transform)) (identityTransform : Mat4 α)
      = some (Mat4.ofMatrix ((chain.take n).map (Joint.transform M)).reverse.prod) := by
  induction n with
  | zero => simp [identityTransform_eq]
  | succ n ih =>
    have hn : n < chain.length := h
    rw [List.range_succ, List.foldlM_append, ih (Nat.le_of_lt hn), List.take_succ,
      List.getElem?_eq_getElem hn]
    simp only [List.foldlM_cons, List.foldlM_nil, List.getElem?_eq_getElem hn, Option.toList,
      List.map_append, List.map_cons, List.map_nil, List.reverse_append, List.reverse_cons,
      List.reverse_nil, List.nil_append, List.singleton_append, List.prod_cons,
      multiplyMatrices_eq, toMatrix_ofMatrix, Joint.transform]
    rfl

theorem getCumulativeTransformSwapped_eq (M : JsMath α) (chain : List (Joint α)) (i : Nat)
    (h : i < chain.length) :
    getCumulativeTransformSwapped M chain i =
      some (Mat4.ofMatrix ((chain.take (i + 1)).map (Joint.transform M)).reverse.prod) :=
  getCumulativeTransformSwapped_loop M chain (i + 1) h

/-! ## Two-joint chains -/

theorem prefixProduct_pair_one (M : JsMath α) (j₁ j₂ : Joint α) :
    prefixProduct M [j₁, j₂] 1 = j₁.transform M := by
  rw [prefixProduct_succ M [j₁, j₂] 0 (by simp), prefixProduct_zero, Matrix.one_mul]
  rfl

theorem prefixProduct_pair_two (M : JsMath α) (j₁ j₂ : Joint α) :
    prefixProduct M [j₁, j₂] 2 = j₁.transform M * j₂.transform M := by
  rw [prefixProduct_succ M [j₁, j₂] 1 (by simp), prefixProduct_pair_one]
  rfl

/-! ## The length of a link -/

/-- The columns of the rotation block of a rigid pose are orthonormal. -/
theorem IsRigid.columns {P : Matrix (Fin 4) (Fin 4) α} (hP : IsRigid P) :
    (P 0 0 * P 0 0 + P 1 0 * P 1 0 + P 2 0 * P 2 0 = 1 ∧
      P 0 1 * P 0 1 + P 1 1 * P 1 1 + P 2 1 * P 2 1 = 1 ∧
      P 0 2 * P 0 2 + P 1 2 * P 1 2 + P 2 2 * P 2 2 = 1) ∧
    (P 0 0 * P 0 1 + P 1 0 * P 1 1 + P 2 0 * P 2 1 = 0 ∧
      P 0 0 * P 0 2 + P 1 0 * P 1 2 + P 2 0 * P 2 2 = 0 ∧
      P 0 1 * P 0 2 + P 1 1 * P 1 2 + P 2 1 * P 2 2 = 0) := by
  obtain ⟨-, hRo, -⟩ := hP
  have h := fun i j => congrFun (congrFun hRo i) j
  simp only [Matrix.mul_apply, Matrix.transpose_apply, Fin.sum_univ_three] at h
  have h00 := h 0 0
  have h11 := h 1 1
  have h22 := h 2 2
  have h01 := h 0 1
  have h02 := h 0 2
  have h12 := h 1 2
  exact ⟨⟨h00, h11, h22⟩, h01, h02, h12⟩

/-- Composing a rigid pose with a transform moves the origin by the length of
the transform's translation column. -/
theorem sqDist_origin_mul (P A : Matrix (Fin 4) (Fin 4) α) (hP : IsRigid P)
    (hA : A 3 3 = 1) :
    sqDist (origin (Mat4.ofMatrix P)) (origin (Mat4.ofMatrix (P * A))) =
      A 0 3 ^ 2 + A 1 3 ^ 2 + A 2 3 ^ 2 := by
  obtain ⟨⟨h00, h11, h22⟩, h01, h02, h12⟩ := hP.columns
  have e : ∀ k : Fin 4, (P * A) k 3 =
      P k 0 * A 0 3 + P k 1 * A 1 3 + P k 2 * A 2 3 + P k 3 := by
    intro k
    rw [Matrix.mul_apply, Fin.sum_univ_four, hA, mul_one]
  have hs : sqDist (origin (Mat4.ofMatrix P)) (origin (Mat4.ofMatrix (P * A))) =
      ((P * A) 0 3 - P 0 3) ^ 2 + ((P * A) 1 3 - P 1 3) ^ 2 + ((P * A) 2 3 - P 2 3) ^ 2 := rfl
  rw [hs, e 0, e 1, e 2]
  linear_combination (A 0 3 ^ 2) * h00 + (A 1 3 ^ 2) * h11 + (A 2 3 ^ 2) * h22 +
    (2 * A 0 3 * A 1 3) * h01 + (2 * A 0 3 * A 2 3) * h02 + (2 * A 1 3 * A 2 3) * h12

/-- Every step of the chain moves the frame origin by `a² + d²` (squared), as
soon as the host's cosine and sine satisfy the Pythagorean identity. -/
theorem sqDist_prefixProduct (M : JsMath α) (chain : List (Joint α))
    (hM : ∀ t, M.cos t ^ 2 + M.sin t ^ 2 = 1) (n : Nat) (h : n < chain.length) :
    sqDist (origin (Mat4.ofMatrix (prefixProduct M chain n)))
        (origin (Mat4.ofMatrix (prefixProduct M chain (n + 1)))) =
      (chain[n]).a ^ 2 + (chain[n]).d ^ 2 := by
  rw [prefixProduct_succ M chain n h,
    sqDist_origin_mul _ _ (prefixProduct_isRigid M chain hM n (Nat.le_of_lt h)) rfl]
  have e0 : (chain[n]).transform M 0 3 = (chain[n]).a * M.cos (chain[n]).theta := rfl
  have e1 : (chain[n]).transform M 1 3 = (chain[n]).a * M.sin (chain[n]).theta := rfl
  have e2 : (chain[n]).transform M 2 3 = (chain[n]).d := rfl
  rw [e0, e1, e2]
  linear_combination ((chain[n]).a ^ 2) * hM (chain[n]).theta

/-! ## The joint type does not enter the transforms -/

omit [Field α] in
theorem getElem?_params_eq {c₁ c₂ : List (Joint α)}
    (h : c₁.map Joint.params = c₂.map Joint.params) (i : Nat) :
    (c₁[i]?).map Joint.params = (c₂[i]?).map Joint.params := by
  rw [← List.getElem?_map, ← List.getElem?_map, h]

theorem transform_eq_of_params {j₁ j₂ : Joint α} (M : JsMath α)
    (h : j₁.params = j₂.params) : j₁.transform M = j₂.transform M := by
  simp only [Joint.params, Prod.mk.injEq] at h
  obtain ⟨ha, hal, hd, ht⟩ := h
  simp only [Joint.transform, ha, hal, hd, ht]

theorem map_transform_eq_of_params (M : JsMath α) {c₁ c₂ : List (Joint α)}
    (h : c₁.map Joint.params = c₂.map Joint.params) :
    c₁.map (Joint.transform M) = c₂.map (Joint.transform M) := by
  induction c₁ generalizing c₂ with
  | nil =>
    cases c₂ with
    | nil => rfl
    | cons j c => simp at h
  | cons j₁ c₁ ih =>
    cases c₂ with
    | nil => simp at h
    | cons j₂ c₂ =>
      simp only [List.map_cons, List.cons.injEq] at h ⊢
      exact ⟨transform_eq_of_params M h.1, ih h.2⟩

theorem prefixProduct_eq_of_params (M : JsMath α) {c₁ c₂ : List (Joint α)}
    (h : c₁.map Joint.params = c₂.map Joint.params) (n : Nat) :
    prefixProduct M c₁ n = prefixProduct M c₂ n := by
  unfold prefixProduct
  rw [List.map_take, List.map_take, map_transform_eq_of_params M h]

/-- The loop of `getCumulativeTransform` reads a record through its four numbers
only. -/
theorem getCumulativeTransform_eq_of_params (M : JsMath α) {c₁ c₂ : List (Joint α)}
    (h : c₁.map Joint.params = c₂.map Joint.params) (i : Nat) :
    getCumulativeTransform M c₁ i = getCumulativeTransform M c₂ i := by
  unfold getCumulativeTransform
  congr 1
  funext transform k
  have hk := getElem?_params_eq h k
  cases h₁ : c₁[k]? with
  | none =>
    cases h₂ : c₂[k]? with
    | none => rfl
    | some j₂ => simp [h₁, h₂] at hk
  | some j₁ =>
    cases h₂ : c₂[k]? with
    | none => simp [h₁, h₂] at hk
    | some j₂ =>
      simp only [h₁, h₂, Option.map_some', Option.some.injEq, Joint.params,
        Prod.mk.injEq] at hk
      obtain ⟨ha, hal, hd, ht⟩ := hk
      simp [ha, hal, hd, ht]

end Lemmas

section HandlerLemmas

variable {α : Type} [Field α]

theorem removeJoint_addJoint (chain : List (Joint α)) (h : 1 ≤ chain.length) :
    removeJoint (addJoint chain) = chain := by
  unfold removeJoint addJoint
  rw [if_pos (by simp; omega), List.dropLast_concat]

theorem length_addJoint (chain : List (Joint α)) :
    (addJoint chain).length = chain.length + 1 := by
  simp [addJoint]

omit [Field α] in
theorem length_removeJoint (chain : List (Joint α)) (h : 1 ≤ chain.length) :
    1 ≤ (removeJoint chain).length := by
  unfold removeJoint
  split
  · rw [List.length_dropLast]; omega
  · exact h

theorem length_handlePresetChange (M : JsMath α) (preset : String) (chain : List (Joint α))
    (h : 1 ≤ chain.length) : 1 ≤ (handlePresetChange M preset chain).length := by
  unfold handlePresetChange
  split_ifs <;> simp [h]

omit [Field α] in
theorem length_handleParamChange (index : Nat) (param : ParamName) (value : α)
    (chain chain' : List (Joint α))
    (h : handleParamChange index param value chain = some chain') :
    chain'.length = chain.length := by
  unfold handleParamChange at h
  cases hj : chain[index]? with
  | none => simp [hj] at h
  | some joint =>
    simp [hj] at h
    rw [← h, List.length_set]

omit [Field α] in
theorem length_handleJointTypeChange (index : Nat) (value : String)
    (chain chain' : List (Joint α))
    (h : handleJointTypeChange index value chain = some chain') :
    chain'.length = chain.length := by
  unfold handleJointTypeChange at h
  cases hj : chain[index]? with
  | none => simp [hj] at h
  | some joint =>
    simp [hj] at h
    rw [← h, List.length_set]

theorem length_animate (s : AppState α) :
    (animate s).dhParams.length = s.dhParams.length := by
  unfold animate
  split <;> simp

/-- Every handler keeps the chain non-empty. -/
theorem step_length (M : JsMath α) (s : AppState α) (e : Event α)
    (h : 1 ≤ s.dhParams.length) : 1 ≤ (step M s e).dhParams.length := by
  cases e with
  | addJoint => simp [step, length_addJoint]
  | removeJoint => exact length_removeJoint _ h
  | handlePresetChange preset => exact length_handlePresetChange M preset _ h
  | handleParamChange index param value =>
    simp only [step]
    cases hc : handleParamChange index param value s.dhParams with
    | none => exact h
    | some chain' => simpa [length_handleParamChange _ _ _ _ _ hc] using h
  | handleJointTypeChange index value =>
    simp only [step]
    cases hc : handleJointTypeChange index value s.dhParams with
    | none => exact h
    | some chain' => simpa [length_handleJointTypeChange _ _ _ _ hc] using h
  | animate => simpa [step, length_animate] using h
  | playAnimation => exact h
  | pauseAnimation => exact h
  | resetAnimation => exact h

theorem foldl_step_length (M : JsMath α) (events : List (Event α)) (s : AppState α)
    (h : 1 ≤ s.dhParams.length) : 1 ≤ (events.foldl (step M) s).dhParams.length := by
  induction events generalizing s with
  | nil => exact h
  | cons e es ih => exact ih _ (step_length M s e h)

end HandlerLemmas

section RealLemmas

/-- A joint with `alpha = 0` and `d = 0`, with the real cosine and sine. -/
theorem dhToTransform_planar (at2 : ℝ → ℝ → ℝ) (sq : ℝ → ℝ) (p a theta : ℝ) :
    (dhToTransform (JsMath.mk Real.cos Real.sin at2 sq p) a 0 0 theta).toMatrix =
      !![Real.cos theta, -Real.sin theta, 0, a * Real.cos theta;
         Real.sin theta, Real.cos theta, 0, a * Real.sin theta;
         0, 0, 1, 0;
         0, 0, 0, 1] := by
  have h : dhToTransform (JsMath.mk Real.cos Real.sin at2 sq p) a 0 0 theta =
      ⟨⟨Real.cos theta, -Real.sin theta, 0, a * Real.cos theta⟩,
       ⟨Real.sin theta, Real.cos theta, 0, a * Real.sin theta⟩,
       ⟨0, 0, 1, 0⟩, ⟨0, 0, 0, 1⟩⟩ := by
    simp [dhToTransform]
  rw [h]
  ext i j
  fin_cases i <;> fin_cases j <;> rfl

/-- The product of two such joints: the angles add up. -/
theorem planar_mul (a₁ a₂ θ₁ θ₂ : ℝ) :
    (!![Real.cos θ₁, -Real.sin θ₁, 0, a₁ * Real.cos θ₁;
        Real.sin θ₁, Real.cos θ₁, 0, a₁ * Real.sin θ₁;
        0, 0, 1, 0;
        0, 0, 0, 1] : Matrix (Fin 4) (Fin 4) ℝ) *
      !![Real.cos θ₂, -Real.sin θ₂, 0, a₂ * Real.cos θ₂;
         Real.sin θ₂, Real.cos θ₂, 0, a₂ * Real.sin θ₂;
         0, 0, 1, 0;
         0, 0, 0, 1] =
      !![Real.cos (θ₁ + θ₂), -Real.sin (θ₁ + θ₂), 0, a₁ * Real.cos θ₁ + a₂ * Real.cos (θ₁ + θ₂);
         Real.sin (θ₁ + θ₂), Real.cos (θ₁ + θ₂), 0, a₁ * Real.sin θ₁ + a₂ * Real.sin (θ₁ + θ₂);
         0, 0, 1, 0;
         0, 0, 0, 1] := by
  ext i j
  simp only [Matrix.mul_apply, Fin.sum_univ_four]
  fin_cases i <;> fin_cases j <;>
    simp only [Fin.zero_eta, Fin.mk_one, Fin.reduceFinMk, Fin.isValue, Matrix.of_apply,
      Matrix.cons_val', Matrix.cons_val_zero, Matrix.cons_val_one, Matrix.head_cons,
      Matrix.cons_val_two, Matrix.tail_cons, Matrix.cons_val_three, Matrix.empty_val',
      Matrix.cons_val_fin_one, Matrix.head_fin_const, Real.cos_add, Real.sin_add] <;> ring

/-- The two cumulative transforms of a two-link planar chain. -/
theorem prefixProduct_twoLinkPlanar (at2 : ℝ → ℝ → ℝ) (sq : ℝ → ℝ) (p a₁ a₂ θ₁ θ₂ : ℝ) :
    prefixProduct (JsMath.mk Real.cos Real.sin at2 sq p) (twoLinkPlanar a₁ a₂ θ₁ θ₂) 1 =
      !![Real.cos θ₁, -Real.sin θ₁, 0, a₁ * Real.cos θ₁;
         Real.sin θ₁, Real.cos θ₁, 0, a₁ * Real.sin θ₁;
         0, 0, 1, 0;
         0, 0, 0, 1] ∧
    prefixProduct (JsMath.mk Real.cos Real.sin at2 sq p) (twoLinkPlanar a₁ a₂ θ₁ θ₂) 2 =
      !![Real.cos (θ₁ + θ₂), -Real.sin (θ₁ + θ₂), 0, a₁ * Real.cos θ₁ + a₂ * Real.cos (θ₁ + θ₂);
         Real.sin (θ₁ + θ₂), Real.cos (θ₁ + θ₂), 0, a₁ * Real.sin θ₁ + a₂ * Real.sin (θ₁ + θ₂);
         0, 0, 1, 0;
         0, 0, 0, 1] := by
  constructor
  · simp only [twoLinkPlanar, prefixProduct_pair_one, Joint.transform, dhToTransform_planar]
  · simp only [twoLinkPlanar, prefixProduct_pair_two, Joint.transform, dhToTransform_planar,
      planar_mul]

/-- The chain installed by `init`: the first frame is the translation by
`(1, 0, 0)` and the second the translation by `(2, 0, 0)`. -/
theorem prefixProduct_default (at2 : ℝ → ℝ → ℝ) (sq : ℝ → ℝ) (p : ℝ) :
    Mat4.ofMatrix (prefixProduct (JsMath.mk Real.cos Real.sin at2 sq p)
        (init (initialState : AppState ℝ)).dhParams 1) =
      ⟨⟨1, 0, 0, 1⟩, ⟨0, 1, 0, 0⟩, ⟨0, 0, 1, 0⟩, ⟨0, 0, 0, 1⟩⟩ ∧
    Mat4.ofMatrix (prefixProduct (JsMath.mk Real.cos Real.sin at2 sq p)
        (init (initialState : AppState ℝ)).dhParams 2) =
      ⟨⟨1, 0, 0, 2⟩, ⟨0, 1, 0, 0⟩, ⟨0, 0, 1, 0⟩, ⟨0, 0, 0, 1⟩⟩ := by
  have h := prefixProduct_twoLinkPlanar at2 sq p 1 1 0 0
  have hc : (init (initialState : AppState ℝ)).dhParams = twoLinkPlanar 1 1 0 0 := rfl
  rw [hc, h.1, h.2]
  simp only [Mat4.ofMatrix, Matrix.of_apply, Matrix.cons_val', Matrix.cons_val_zero,
    Matrix.cons_val_one, Matrix.head_cons, Matrix.cons_val_two, Matrix.tail_cons,
    Matrix.cons_val_three, Matrix.empty_val', Matrix.cons_val_fin_one, Matrix.head_fin_const,
    add_zero, Real.cos_zero, Real.sin_zero, neg_zero, mul_one, mul_zero]
  norm_num

theorem arg_mk_one_zero : Complex.arg ⟨1, 0⟩ = 0 := by
  have h : (⟨1, 0⟩ : ℂ) = 1 := rfl
  rw [h, Complex.arg_one]

/-- The pose read off a pure translation, with the real `atan2` and `sqrt`. -/
theorem updateEndEffectorInfo_translation (x y z : ℝ) :
    updateEndEffectorInfo
        (JsMath.mk Real.cos Real.sin (fun y x => Complex.arg ⟨x, y⟩) Real.sqrt Real.pi)
        ⟨⟨1, 0, 0, x⟩, ⟨0, 1, 0, y⟩, ⟨0, 0, 1, z⟩, ⟨0, 0, 0, 1⟩⟩ =
      { x := x, y := y, z := z, roll := 0, pitch := 0, yaw := 0,
        matrix := ⟨⟨1, 0, 0, x⟩, ⟨0, 1, 0, y⟩, ⟨0, 0, 1, z⟩, ⟨0, 0, 0, 1⟩⟩ } := by
  simp only [updateEndEffectorInfo, Mat4.get, Mat4.row, Row4.get]
  have hs : Real.sqrt ((0 : ℝ) ^ 2 + 1 ^ 2) = 1 := by norm_num
  rw [hs, neg_zero, arg_mk_one_zero]

/-- On the empty chain the loop of `updateVisualization` does not run and
`updateEndEffectorInfo` is called on the identity transform. -/
theorem updateVisualization_nil_eq (showCommonNormal : Bool) :
    updateVisualization
        (JsMath.mk Real.cos Real.sin (fun y x => Complex.arg ⟨x, y⟩) Real.sqrt Real.pi)
        ([] : List (Joint ℝ)) showCommonNormal =
      some [SceneCall.addCoordinateAxes (0 : ℝ) 0 0 "Base",
        SceneCall.updateEndEffectorInfo
          { x := 0, y := 0, z := 0, roll := 0, pitch := 0, yaw := 0,
            matrix := identityTransform }] := by
  have h : updateVisualization
      (JsMath.mk Real.cos Real.sin (fun y x => Complex.arg ⟨x, y⟩) Real.sqrt Real.pi)
      ([] : List (Joint ℝ)) showCommonNormal =
      some [SceneCall.addCoordinateAxes (0 : ℝ) 0 0 "Base",
        SceneCall.updateEndEffectorInfo (updateEndEffectorInfo
            (JsMath.mk Real.cos Real.sin (fun y x => Complex.arg ⟨x, y⟩) Real.sqrt Real.pi)
            identityTransform)] := rfl
  rw [h]
  unfold identityTransform
  rw [updateEndEffectorInfo_translation]

/-- The joint `a = 0`, `alpha = 0`, `d = 0`, `theta = 0` has the identity array as
its transform. -/
theorem dhToTransform_zero (at2 : ℝ → ℝ → ℝ) (sq : ℝ → ℝ) (p : ℝ) :
    dhToTransform (JsMath.mk Real.cos Real.sin at2 sq p) 0 0 0 0 = identityTransform := by
  simp [dhToTransform, identityTransform]

/-- The calls of `updateVisualization` on a one-joint chain, with the checkbox
on. -/
theorem updateVisualization_single (M : JsMath ℝ) (j : Joint ℝ) :
    updateVisualization M [j] true =
      some [SceneCall.addCoordinateAxes 0 0 0 "Base",
        SceneCall.drawJoint
          ((multiplyMatrices identityTransform
            (dhToTransform M j.a j.alpha j.d j.theta)).get 0 3)
          ((multiplyMatrices identityTransform
            (dhToTransform M j.a j.alpha j.d j.theta)).get 1 3)
          ((multiplyMatrices identityTransform
            (dhToTransform M j.a j.alpha j.d j.theta)).get 2 3) j.type,
        SceneCall.addCoordinateAxes
          ((multiplyMatrices identityTransform
            (dhToTransform M j.a j.alpha j.d j.theta)).get 0 3)
          ((multiplyMatrices identityTransform
            (dhToTransform M j.a j.alpha j.d j.theta)).get 1 3)
          ((multiplyMatrices identityTransform
            (dhToTransform M j.a j.alpha j.d j.theta)).get 2 3) "Frame 1",
        SceneCall.drawDHParametersVisualization 0 j
          (multiplyMatrices identityTransform (dhToTransform M j.a j.alpha j.d j.theta)),
        SceneCall.updateEndEffectorInfo (updateEndEffectorInfo M
          (multiplyMatrices identityTransform
            (dhToTransform M j.a j.alpha j.d j.theta)))] := rfl

theorem multiplyMatrices_identity (T : Mat4 ℝ) :
    multiplyMatrices identityTransform T = T := by
  rw [multiplyMatrices_eq, identityTransform_toMatrix, Matrix.one_mul, ofMatrix_toMatrix]

/-- The real `atan2` recovers an angle of `(-pi, pi]` from its sine and
cosine. -/
theorem arg_mk_cos_sin (t : ℝ) (h : -Real.pi < t ∧ t ≤ Real.pi) :
    Complex.arg ⟨Real.cos t, Real.sin t⟩ = t := by
  have e : (⟨Real.cos t, Real.sin t⟩ : ℂ) =
      Complex.cos t + Complex.sin t * Complex.I := by
    apply Complex.ext
    · simp [Complex.cos_ofReal_re, Complex.sin_ofReal_im]
    · simp [Complex.cos_ofReal_im, Complex.sin_ofReal_re]
  rw [e]
  exact Complex.arg_cos_add_sin_mul_I ⟨h.1, h.2⟩

/-- The two frame origins of a two-link planar chain, whatever `Math.PI` is. -/
theorem twoLinkPlanar_origins (at2 : ℝ → ℝ → ℝ) (sq : ℝ → ℝ) (p b₁ b₂ φ₁ φ₂ : ℝ) :
    ∃ T₀ T₁,
      getCumulativeTransform (JsMath.mk Real.cos Real.sin at2 sq p)
        (twoLinkPlanar b₁ b₂ φ₁ φ₂) 0 = some T₀ ∧
      getCumulativeTransform (JsMath.mk Real.cos Real.sin at2 sq p)
        (twoLinkPlanar b₁ b₂ φ₁ φ₂) 1 = some T₁ ∧
      T₁ = Mat4.ofMatrix (prefixProduct (JsMath.mk Real.cos Real.sin at2 sq p)
        (twoLinkPlanar b₁ b₂ φ₁ φ₂) 2) ∧
      origin T₀ = (b₁ * Real.cos φ₁, b₁ * Real.sin φ₁, 0) ∧
      origin T₁ = (b₁ * Real.cos φ₁ + b₂ * Real.cos (φ₁ + φ₂),
        b₁ * Real.sin φ₁ + b₂ * Real.sin (φ₁ + φ₂), 0) := by
  refine ⟨_, _, getCumulativeTransform_eq _ _ 0 (by simp [twoLinkPlanar]),
    getCumulativeTransform_eq _ _ 1 (by simp [twoLinkPlanar]), rfl, ?_, ?_⟩
  · rw [(prefixProduct_twoLinkPlanar _ _ _ b₁ b₂ φ₁ φ₂).1]
    rfl
  · rw [(prefixProduct_twoLinkPlanar _ _ _ b₁ b₂ φ₁ φ₂).2]
    rfl

/-- The double `Math.PI` lies below pi, by less than `1e-15`. -/
theorem doublePI_bounds : (doublePI : ℝ) < Real.pi ∧ Real.pi - doublePI < 1e-15 := by
  have h₁ := Real.pi_gt_d20
  have h₂ := Real.pi_lt_d20
  unfold doublePI
  constructor
  · norm_num at h₁ ⊢
    linarith
  · norm_num at h₂ ⊢
    linarith

/-- The cosine and sine at `Math.PI / 2` and at `Math.PI / 2 + Math.PI / 2`: close
to those at `pi / 2` and `pi`, and the cosine at `Math.PI / 2` is not zero. -/
theorem doublePI_trig :
    (0 < Real.cos (doublePI / 2) ∧ Real.cos (doublePI / 2) < 1e-15) ∧
    (1 - 1e-15 < Real.sin (doublePI / 2) ∧ Real.sin (doublePI / 2) ≤ 1) ∧
    (-1 ≤ Real.cos (doublePI / 2 + doublePI / 2) ∧
      Real.cos (doublePI / 2 + doublePI / 2) < -1 + 1e-15) ∧
    (0 < Real.sin (doublePI / 2 + doublePI / 2) ∧
      Real.sin (doublePI / 2 + doublePI / 2) < 1e-15) := by
  obtain ⟨hlt, hgap⟩ := doublePI_bounds
  obtain ⟨δ, hδ⟩ : ∃ δ : ℝ, δ = Real.pi / 2 - doublePI / 2 := ⟨_, rfl⟩
  have hδ0 : 0 < δ := by rw [hδ]; linarith
  have hδ1 : δ < 5e-16 := by rw [hδ]; norm_num at hgap ⊢; linarith
  have hπ : (3 : ℝ) < Real.pi := Real.pi_gt_three
  have hq : (doublePI : ℝ) / 2 = Real.pi / 2 - δ := by rw [hδ]; ring
  have hqq : (doublePI : ℝ) / 2 + doublePI / 2 = Real.pi - 2 * δ := by rw [hδ]; ring
  have hs₁ : 0 < Real.sin δ := Real.sin_pos_of_pos_of_lt_pi hδ0 (by norm_num at hδ1; linarith)
  have hs₂ : Real.sin δ < δ := Real.sin_lt hδ0
  have hc₁ : Real.cos δ ≤ 1 := Real.cos_le_one δ
  have hc₂ : 1 - δ ^ 2 / 2 ≤ Real.cos δ := Real.one_sub_sq_div_two_le_cos
  have hs₃ : 0 < Real.sin (2 * δ) :=
    Real.sin_pos_of_pos_of_lt_pi (by linarith) (by norm_num at hδ1; linarith)
  have hs₄ : Real.sin (2 * δ) < 2 * δ := Real.sin_lt (by linarith)
  have hc₃ : Real.cos (2 * δ) ≤ 1 := Real.cos_le_one _
  have hc₄ : 1 - (2 * δ) ^ 2 / 2 ≤ Real.cos (2 * δ) := Real.one_sub_sq_div_two_le_cos
  have hsq : δ ^ 2 ≤ δ := by nlinarith [hδ0, hδ1]
  rw [hqq, hq, Real.cos_pi_div_two_sub, Real.sin_pi_div_two_sub, Real.cos_pi_sub,
    Real.sin_pi_sub]
  norm_num at hδ1 ⊢
  refine ⟨⟨hs₁, by linarith⟩, ⟨by nlinarith, hc₁⟩, ⟨hc₃, by nlinarith⟩, hs₃, by linarith⟩

end RealLemmas

/-! ## The claims -/

/-- C1: for all real `a`, `alpha`, `d`, `theta`, `dhToTransform` returns exactly
the documented 4x4 array, built from the cosine and sine of `theta` and `alpha`;
it is a total function, so there is no error case. -/
theorem dhToTransform_eq (a alpha d theta : ℝ) :
    dhToTransform
        (JsMath.mk Real.cos Real.sin (fun y x => Complex.arg ⟨x, y⟩) Real.sqrt Real.pi)
        a alpha d theta =
      ⟨⟨Real.cos theta, -Real.sin theta * Real.cos alpha, Real.sin theta * Real.sin alpha,
          a * Real.cos theta⟩,
       ⟨Real.sin theta, Real.cos theta * Real.cos alpha, -Real.cos theta * Real.sin alpha,
          a * Real.sin theta⟩,
       ⟨0, Real.sin alpha, Real.cos alpha, d⟩,
       ⟨0, 0, 0, 1⟩⟩ := rfl

/-- C2: for every chain of real joint parameters and every index `i` below its
length, `getCumulativeTransform(i)` and the running `currentTransform` after
iteration `i` of the loop of `updateVisualization` both hold the ordered matrix
product `I * A_0 * ... * A_i`, which satisfies `T_i = T_(i-1) * A_i` with the
identity before the first joint; and the loop produces one frame per joint, the
joints being drawn at the origins of `T_0, ..., T_(n-1)` in order. -/
theorem cumulativeTransform_eq_chainProduct (M : JsMath ℝ) (chain : List (Joint ℝ))
    (showCommonNormal : Bool) (i : Nat) (hi : i < chain.length) :
    getCumulativeTransform M chain i = some (Mat4.ofMatrix (chainProduct M chain i)) ∧
    (updateVisualizationLoop M chain showCommonNormal (i + 1)).map VizState.currentTransform =
      some (Mat4.ofMatrix (chainProduct M chain i)) ∧
    chainProduct M chain i =
      (match i with
        | 0 => 1
        | k + 1 => chainProduct M chain k) *
        (dhToTransform M (chain[i]).a (chain[i]).alpha (chain[i]).d (chain[i]).theta).toMatrix ∧
    ∃ calls, updateVisualization M chain showCommonNormal = some calls ∧
      jointPositions calls =
        (List.range chain.length).map (fun k => origin (Mat4.ofMatrix (chainProduct M chain k))) := by
  refine ⟨getCumulativeTransform_eq M chain i hi, ?_, ?_, ?_⟩
  · obtain ⟨s, hs, hT, -⟩ := updateVisualizationLoop_eq M chain showCommonNormal (i + 1) hi
    rw [hs]
    simp [hT, chainProduct_eq_prefixProduct]
  · rw [chainProduct_eq_prefixProduct, prefixProduct_succ M chain i hi]
    cases i with
    | zero => simp [prefixProduct_zero, Joint.transform]
    | succ k => simp [chainProduct_eq_prefixProduct, Joint.transform]
  · obtain ⟨calls, hc, -, hJ, -⟩ := updateVisualization_eq M chain showCommonNormal
    exact ⟨calls, hc, by simpa [chainProduct_eq_prefixProduct] using hJ⟩

/-- C2 at the chain installed by `init`, index 1. -/
theorem cumulativeTransform_eq_chainProduct_witness :
    1 < (init (initialState : AppState ℝ)).dhParams.length ∧
    getCumulativeTransform
        (JsMath.mk Real.cos Real.sin (fun y x => Complex.arg ⟨x, y⟩) Real.sqrt Real.pi)
        (init (initialState : AppState ℝ)).dhParams 1 =
      some (Mat4.ofMatrix (chainProduct
          (JsMath.mk Real.cos Real.sin (fun y x => Complex.arg ⟨x, y⟩) Real.sqrt Real.pi)
          (init (initialState : AppState ℝ)).dhParams 1)) :=
  ⟨by simp [init],
    (cumulativeTransform_eq_chainProduct _ _ true 1 (by simp [init])).1⟩

/-- C3: for every chain of real joint parameters and every joint index `i`, the
cumulative transform of joint `i` is a rigid-body pose (bottom row `[0, 0, 0, 1]`,
upper-left block `R` with `Rᵀ * R = I` and `det R = 1`), and so is every
single-joint transform returned by `dhToTransform`. -/
theorem cumulativeTransform_isRigid (chain : List (Joint ℝ)) (i : Nat) (hi : i < chain.length) :
    (∃ T, getCumulativeTransform
        (JsMath.mk Real.cos Real.sin (fun y x => Complex.arg ⟨x, y⟩) Real.sqrt Real.pi)
        chain i = some T ∧ IsRigid T.toMatrix) ∧
    ∀ a alpha d theta : ℝ, IsRigid (dhToTransform
        (JsMath.mk Real.cos Real.sin (fun y x => Complex.arg ⟨x, y⟩) Real.sqrt Real.pi)
        a alpha d theta).toMatrix := by
  refine ⟨⟨_, getCumulativeTransform_eq _ chain i hi, ?_⟩, ?_⟩
  · rw [toMatrix_ofMatrix]
    exact prefixProduct_isRigid _ chain (fun t => Real.cos_sq_add_sin_sq t) (i + 1) hi
  · intro a alpha d theta
    exact dhToTransform_isRigid _ a alpha d theta (Real.cos_sq_add_sin_sq theta)
      (Real.cos_sq_add_sin_sq alpha)

/-- C3 at the chain installed by `init`, index 1. -/
theorem cumulativeTransform_isRigid_witness :
    1 < (init (initialState : AppState ℝ)).dhParams.length ∧
    ∃ T, getCumulativeTransform
        (JsMath.mk Real.cos Real.sin (fun y x => Complex.arg ⟨x, y⟩) Real.sqrt Real.pi)
        (init (initialState : AppState ℝ)).dhParams 1 = some T ∧
      IsRigid T.toMatrix :=
  ⟨by simp [init],
    (cumulativeTransform_isRigid (init (initialState : AppState ℝ)).dhParams 1
      (by simp [init])).1⟩

/-- C4, as the script behaves: for every chain of `n` joints the link segments
drawn are `n - 1` pairs, one per joint `i >= 1` in order, from the origin of
cumulative frame `i - 1` to the origin of cumulative frame `i` (the frames being
those `getCumulativeTransform` returns); no segment starts at the base origin. -/
theorem linkSegments_eq (M : JsMath ℝ) (chain : List (Joint ℝ)) (showCommonNormal : Bool) :
    ∃ calls, updateVisualization M chain showCommonNormal = some calls ∧
      (linkSegments calls).length = chain.length - 1 ∧
      (linkSegments calls).map (fun p => (some p.1, some p.2)) =
        (List.range (chain.length - 1)).map (fun i =>
          ((getCumulativeTransform M chain i).map origin,
            (getCumulativeTransform M chain (i + 1)).map origin)) := by
  obtain ⟨calls, hc, hL, -⟩ := updateVisualization_eq M chain showCommonNormal
  refine ⟨calls, hc, by simp [hL], ?_⟩
  rw [hL, List.map_map]
  apply List.map_congr_left
  intro i hi
  have hi' : i < chain.length - 1 := List.mem_range.1 hi
  rw [getCumulativeTransform_eq M chain i (by omega),
    getCumulativeTransform_eq M chain (i + 1) (by omega)]
  rfl

/-- C4 fails as stated: the chain installed by `init` has two joints and
`updateVisualization` draws one link segment, from `(1, 0, 0)` to `(2, 0, 0)`;
none starts at the base origin. -/
theorem linkSegments_default_chain :
    ∃ calls, updateVisualization
        (JsMath.mk Real.cos Real.sin (fun y x => Complex.arg ⟨x, y⟩) Real.sqrt Real.pi)
        (init (initialState : AppState ℝ)).dhParams false =
        some calls ∧
      (init (initialState : AppState ℝ)).dhParams.length = 2 ∧
      linkSegments calls = [((1, 0, 0), (2, 0, 0))] := by
  obtain ⟨calls, hc, hL, -⟩ := updateVisualization_eq
      (JsMath.mk Real.cos Real.sin (fun y x => Complex.arg ⟨x, y⟩) Real.sqrt Real.pi)
    (init (initialState : AppState ℝ)).dhParams false
  refine ⟨calls, hc, rfl, ?_⟩
  rw [hL]
  have hr : List.range ((init (initialState : AppState ℝ)).dhParams.length - 1) = [0] := rfl
  rw [hr]
  simp only [List.map_cons, List.map_nil, (prefixProduct_default _ _ _).1,
    (prefixProduct_default _ _ _).2, origin, Mat4.get, Mat4.row, Row4.get]

/-- C5, as it holds: for every non-empty chain, composing with the operands
of the product exchanged gives the product of the joint transforms in reverse
order, `A_(n-1) * ... * A_0`, while the documented composition gives
`A_0 * ... * A_(n-1)`; so the two final transforms differ exactly when these two
products differ. -/
theorem swapped_ne_iff (M : JsMath ℝ) (chain : List (Joint ℝ)) (hne : chain ≠ []) :
    getCumulativeTransformSwapped M chain (chain.length - 1) =
      some (Mat4.ofMatrix (chain.map (Joint.transform M)).reverse.prod) ∧
    getCumulativeTransform M chain (chain.length - 1) =
      some (Mat4.ofMatrix (chain.map (Joint.transform M)).prod) ∧
    (getCumulativeTransformSwapped M chain (chain.length - 1) ≠
        getCumulativeTransform M chain (chain.length - 1) ↔
      (chain.map (Joint.transform M)).reverse.prod ≠ (chain.map (Joint.transform M)).prod) := by
  have hlen : chain.length - 1 < chain.length :=
    Nat.sub_lt (List.length_pos.mpr hne) Nat.one_pos
  have hadd : chain.length - 1 + 1 = chain.length := by omega
  rw [getCumulativeTransformSwapped_eq M chain _ hlen, getCumulativeTransform_eq M chain _ hlen,
    prefixProduct_eq_prod, hadd, List.take_length]
  refine ⟨rfl, rfl, ?_⟩
  constructor
  · intro h hp
    exact h (by rw [hp])
  · intro h hp
    exact h (ofMatrix_injective (Option.some.inj hp))

/-- C5 at the chain `(a = 1, theta = pi)`, `(a = 1, theta = 0)`: exchanging the
operands does change the final transform. -/
theorem swapped_ne_iff_witness :
    twoLinkPlanar (1 : ℝ) 1 Real.pi 0 ≠ [] ∧
    getCumulativeTransformSwapped
        (JsMath.mk Real.cos Real.sin (fun y x => Complex.arg ⟨x, y⟩) Real.sqrt Real.pi)
        (twoLinkPlanar 1 1 Real.pi 0) 1 ≠
      getCumulativeTransform
          (JsMath.mk Real.cos Real.sin (fun y x => Complex.arg ⟨x, y⟩) Real.sqrt Real.pi)
          (twoLinkPlanar 1 1 Real.pi 0) 1 := by
  refine ⟨by simp [twoLinkPlanar],
    (swapped_ne_iff
        (JsMath.mk Real.cos Real.sin (fun y x => Complex.arg ⟨x, y⟩) Real.sqrt Real.pi)
        (twoLinkPlanar 1 1 Real.pi 0) (by simp [twoLinkPlanar])).2.2.2 ?_⟩
  intro h
  simp only [twoLinkPlanar, List.map_cons, List.map_nil, List.reverse_cons, List.reverse_nil,
    List.nil_append, List.singleton_append, List.prod_cons, List.prod_nil, mul_one,
    Joint.transform, dhToTransform_planar, planar_mul] at h
  have h03 := congrFun (congrFun h 0) 3
  simp only [Matrix.of_apply, Matrix.cons_val', Matrix.cons_val_zero, Matrix.cons_val_three,
    Matrix.head_cons, Matrix.tail_cons, Matrix.empty_val', Matrix.cons_val_fin_one,
    Matrix.head_fin_const, Real.cos_zero, Real.cos_pi, zero_add, add_zero] at h03
  norm_num at h03

/-- C5 fails as stated: the two joints of the chain installed by `init` are
non-trivial (their transform is not the identity), yet the composition with the
operands exchanged gives the same final transform as the documented one. -/
theorem swapped_default_chain_eq :
    dhToTransform
        (JsMath.mk Real.cos Real.sin (fun y x => Complex.arg ⟨x, y⟩) Real.sqrt Real.pi)
        1 0 0 0 ≠ identityTransform ∧
    getCumulativeTransformSwapped
        (JsMath.mk Real.cos Real.sin (fun y x => Complex.arg ⟨x, y⟩) Real.sqrt Real.pi)
        (init (initialState : AppState ℝ)).dhParams 1 =
      getCumulativeTransform
          (JsMath.mk Real.cos Real.sin (fun y x => Complex.arg ⟨x, y⟩) Real.sqrt Real.pi)
          (init (initialState : AppState ℝ)).dhParams 1 := by
  constructor
  · intro h
    have h03 : (dhToTransform
        (JsMath.mk Real.cos Real.sin (fun y x => Complex.arg ⟨x, y⟩) Real.sqrt Real.pi)
        1 0 0 0).get 0 3 = (identityTransform : Mat4 ℝ).get 0 3 := by
      rw [h]
    simp [dhToTransform, identityTransform, Mat4.get, Mat4.row, Row4.get] at h03
  · rw [getCumulativeTransformSwapped_eq _ _ 1 (by simp [init]),
      getCumulativeTransform_eq _ _ 1 (by simp [init]), prefixProduct_eq_prod]
    rfl

/-- C6: for the chain installed by `init` (two revolute joints, each `a = 1`,
`alpha = 0`, `d = 0`, `theta = 0`), `updateVisualization` reports the
end-effector position `(2, 0, 0)` and the orientation `(0, 0, 0)`. -/
theorem endEffector_default_chain (showCommonNormal : Bool) :
    ∃ calls info, updateVisualization
        (JsMath.mk Real.cos Real.sin (fun y x => Complex.arg ⟨x, y⟩) Real.sqrt Real.pi)
        (init (initialState : AppState ℝ)).dhParams
        showCommonNormal = some calls ∧
      endEffectorReports calls = [info] ∧
      (info.x, info.y, info.z) = (2, 0, 0) ∧ (info.roll, info.pitch, info.yaw) = (0, 0, 0) := by
  obtain ⟨calls, hc, -, -, hE⟩ := updateVisualization_eq
      (JsMath.mk Real.cos Real.sin (fun y x => Complex.arg ⟨x, y⟩) Real.sqrt Real.pi)
    (init (initialState : AppState ℝ)).dhParams showCommonNormal
  have hlen : (init (initialState : AppState ℝ)).dhParams.length = 2 := rfl
  rw [hlen, (prefixProduct_default _ _ _).2, updateEndEffectorInfo_translation] at hE
  exact ⟨calls, _, hc, hE, rfl, rfl⟩

/-- C7, as it holds: for all real `a₁`, `a₂`, `θ₁`, `θ₂` the two-joint planar
chain has its first frame origin at `(a₁ cos θ₁, a₁ sin θ₁, 0)` and its end
effector at `(a₁ cos θ₁ + a₂ cos (θ₁ + θ₂), a₁ sin θ₁ + a₂ sin (θ₁ + θ₂), 0)`,
which is also the position `updateVisualization` reports; for `a₁ = a₂ = 1` and
`θ₁ = θ₂ = Math.PI / 2` (`Math.PI` being the double nearest to pi) these are
within `1e-9` of `(0, 1, 0)` and `(-1, 1, 0)`. -/
theorem twoLinkPlanar_positions (a₁ a₂ θ₁ θ₂ : ℝ) (showCommonNormal : Bool) :
    (∃ T₀ T₁ calls info,
      getCumulativeTransform
          (JsMath.mk Real.cos Real.sin (fun y x => Complex.arg ⟨x, y⟩) Real.sqrt doublePI)
          (twoLinkPlanar a₁ a₂ θ₁ θ₂) 0 = some T₀ ∧
      getCumulativeTransform
          (JsMath.mk Real.cos Real.sin (fun y x => Complex.arg ⟨x, y⟩) Real.sqrt doublePI)
          (twoLinkPlanar a₁ a₂ θ₁ θ₂) 1 = some T₁ ∧
      updateVisualization
          (JsMath.mk Real.cos Real.sin (fun y x => Complex.arg ⟨x, y⟩) Real.sqrt doublePI)
          (twoLinkPlanar a₁ a₂ θ₁ θ₂) showCommonNormal = some calls ∧
      endEffectorReports calls = [info] ∧
      origin T₀ = (a₁ * Real.cos θ₁, a₁ * Real.sin θ₁, 0) ∧
      origin T₁ = (a₁ * Real.cos θ₁ + a₂ * Real.cos (θ₁ + θ₂),
        a₁ * Real.sin θ₁ + a₂ * Real.sin (θ₁ + θ₂), 0) ∧
      (info.x, info.y, info.z) = origin T₁) ∧
    (∃ T₀ T₁,
      getCumulativeTransform
          (JsMath.mk Real.cos Real.sin (fun y x => Complex.arg ⟨x, y⟩) Real.sqrt doublePI)
          (twoLinkPlanar 1 1 (doublePI / 2) (doublePI / 2)) 0 = some T₀ ∧
      getCumulativeTransform
          (JsMath.mk Real.cos Real.sin (fun y x => Complex.arg ⟨x, y⟩) Real.sqrt doublePI)
          (twoLinkPlanar 1 1 (doublePI / 2) (doublePI / 2)) 1 = some T₁ ∧
      withinTol 1e-9 (origin T₀) (0, 1, 0) ∧ withinTol 1e-9 (origin T₁) (-1, 1, 0)) := by
  constructor
  · obtain ⟨T₀, T₁, h₀, h₁, hT, ho₀, ho₁⟩ := twoLinkPlanar_origins
      (fun y x => Complex.arg ⟨x, y⟩) Real.sqrt doublePI a₁ a₂ θ₁ θ₂
    obtain ⟨calls, hc, -, -, hE⟩ := updateVisualization_eq
        (JsMath.mk Real.cos Real.sin (fun y x => Complex.arg ⟨x, y⟩) Real.sqrt doublePI)
        (twoLinkPlanar a₁ a₂ θ₁ θ₂)
      showCommonNormal
    have hlen : (twoLinkPlanar a₁ a₂ θ₁ θ₂).length = 2 := rfl
    rw [hlen, ← hT] at hE
    exact ⟨T₀, T₁, calls, _, h₀, h₁, hc, hE, ho₀, ho₁, rfl⟩
  · obtain ⟨T₀, T₁, h₀, h₁, -, ho₀, ho₁⟩ := twoLinkPlanar_origins
      (fun y x => Complex.arg ⟨x, y⟩) Real.sqrt doublePI 1 1 (doublePI / 2) (doublePI / 2)
    obtain ⟨⟨hc₁, hc₂⟩, ⟨hs₁, hs₂⟩, ⟨hc₃, hc₄⟩, hs₃, hs₄⟩ := doublePI_trig
    refine ⟨T₀, T₁, h₀, h₁, ?_, ?_⟩
    · rw [ho₀]
      simp only [withinTol, one_mul, sub_zero, sub_self, abs_zero]
      norm_num at hc₂ hs₁ ⊢
      exact ⟨abs_le.mpr ⟨by linarith, by linarith⟩, abs_le.mpr ⟨by linarith, by linarith⟩⟩
    · rw [ho₁]
      simp only [withinTol, one_mul, sub_self, abs_zero, sub_neg_eq_add]
      generalize Real.cos (doublePI / 2 + doublePI / 2) = c₂ at hc₃ hc₄ ⊢
      generalize Real.sin (doublePI / 2 + doublePI / 2) = s₂ at hs₃ hs₄ ⊢
      generalize Real.cos (doublePI / 2) = c₁ at hc₁ hc₂ ⊢
      generalize Real.sin (doublePI / 2) = s₁ at hs₁ hs₂ ⊢
      norm_num at hc₂ hs₁ hc₄ hs₄ ⊢
      exact ⟨abs_le.mpr ⟨by linarith, by linarith⟩, abs_le.mpr ⟨by linarith, by linarith⟩⟩

/-- C7 fails as stated: with `a₁ = a₂ = 1` and `θ₁ = θ₂ = Math.PI / 2` the first
frame origin is not `(0, 1, 0)` (its first coordinate `cos (Math.PI / 2)` is
positive) and the end effector is not exactly `(-1, 1, 0)`. -/
theorem twoLinkPlanar_half_pi_not_exact :
    ∃ T₀ T₁,
      getCumulativeTransform
          (JsMath.mk Real.cos Real.sin (fun y x => Complex.arg ⟨x, y⟩) Real.sqrt doublePI)
          (twoLinkPlanar 1 1 (doublePI / 2) (doublePI / 2)) 0 = some T₀ ∧
      getCumulativeTransform
          (JsMath.mk Real.cos Real.sin (fun y x => Complex.arg ⟨x, y⟩) Real.sqrt doublePI)
          (twoLinkPlanar 1 1 (doublePI / 2) (doublePI / 2)) 1 = some T₁ ∧
      origin T₀ ≠ (0, 1, 0) ∧ origin T₁ ≠ (-1, 1, 0) := by
  obtain ⟨T₀, T₁, h₀, h₁, -, ho₀, ho₁⟩ := twoLinkPlanar_origins
    (fun y x => Complex.arg ⟨x, y⟩) Real.sqrt doublePI 1 1 (doublePI / 2) (doublePI / 2)
  obtain ⟨⟨hc₁, -⟩, -, ⟨hc₃, -⟩, -⟩ := doublePI_trig
  refine ⟨T₀, T₁, h₀, h₁, ?_, ?_⟩
  · rw [ho₀]
    intro h
    have hx := congrArg Prod.fst h
    simp only [one_mul] at hx
    linarith
  · rw [ho₁]
    intro h
    have hx := congrArg Prod.fst h
    simp only [one_mul] at hx
    linarith

/-- C8: for every chain the script can hold (the chain after `init` and any
sequence of handlers), `addJoint` followed by `removeJoint` leaves the chain
equal to what it was before the two operations (same length, same records in
the same order), and so the cumulative transform at every index is what it
was. -/
theorem removeJoint_addJoint_run (M : JsMath ℝ) (events : List (Event ℝ)) :
    removeJoint (addJoint (run M events).dhParams) = (run M events).dhParams ∧
    (run M (events ++ [Event.addJoint, Event.removeJoint])).dhParams =
      (run M events).dhParams ∧
    ∀ i, getCumulativeTransform M (removeJoint (addJoint (run M events).dhParams)) i =
      getCumulativeTransform M (run M events).dhParams i := by
  have hlen : 1 ≤ (run M events).dhParams.length :=
    foldl_step_length M events _ (by simp [init])
  have hc := removeJoint_addJoint (run M events).dhParams hlen
  refine ⟨hc, ?_, fun i => by rw [hc]⟩
  simp only [run, List.foldl_append, List.foldl_cons, List.foldl_nil, step]
  exact hc

/-- C9: in every state reached from `init` by any sequence of handlers
(`addJoint`, `removeJoint`, `handlePresetChange`, `handleParamChange`,
`handleJointTypeChange`, animation frames, play, pause, reset) the chain
`dhParams` has at least one joint; and `removeJoint` leaves a chain of length 1
unchanged. -/
theorem dhParams_length_pos (M : JsMath ℝ) (events : List (Event ℝ)) :
    1 ≤ (run M events).dhParams.length ∧
    ∀ chain : List (Joint ℝ), chain.length = 1 → removeJoint chain = chain := by
  refine ⟨foldl_step_length M events _ (by simp [init]), ?_⟩
  intro chain h
  simp [removeJoint, h]

/-- C10, as the script behaves: on the empty chain `updateVisualization` draws
the base frame, no joint and no link, and then does call
`updateEndEffectorInfo`, on the identity transform: the position `(0, 0, 0)` and
the orientation `(0, 0, 0)` are reported. -/
theorem updateVisualization_nil (showCommonNormal : Bool) :
    ∃ calls, updateVisualization
        (JsMath.mk Real.cos Real.sin (fun y x => Complex.arg ⟨x, y⟩) Real.sqrt Real.pi)
        ([] : List (Joint ℝ)) showCommonNormal = some calls ∧
      jointPositions calls = [] ∧ linkSegments calls = [] ∧
      endEffectorReports calls =
        [{ x := 0, y := 0, z := 0, roll := 0, pitch := 0, yaw := 0,
           matrix := identityTransform }] :=
  ⟨_, updateVisualization_nil_eq showCommonNormal, rfl, rfl, rfl⟩

/-- C10 fails as stated: evaluating the empty chain does invoke
`updateEndEffectorInfo`, which reports one pose. -/
theorem endEffectorReports_nil :
    ∃ calls, updateVisualization
        (JsMath.mk Real.cos Real.sin (fun y x => Complex.arg ⟨x, y⟩) Real.sqrt Real.pi)
        ([] : List (Joint ℝ)) false = some calls ∧
      (endEffectorReports calls).length = 1 := by
  refine ⟨_, updateVisualization_nil_eq false, ?_⟩
  simp [endEffectorReports]

/-- C11: for every two chains that agree on `a`, `alpha`, `d` and `theta` at
every index (so have the same length) and differ at most in the joints' `type`,
`getCumulativeTransform` returns the same at every index and
`updateVisualization` reports the same end-effector position and orientation:
the joint type never enters the transform computation. -/
theorem jointType_irrelevant (M : JsMath ℝ) (c₁ c₂ : List (Joint ℝ))
    (showCommonNormal : Bool) (h : c₁.map Joint.params = c₂.map Joint.params) :
    (∀ i, getCumulativeTransform M c₁ i = getCumulativeTransform M c₂ i) ∧
    ∃ calls₁ calls₂, updateVisualization M c₁ showCommonNormal = some calls₁ ∧
      updateVisualization M c₂ showCommonNormal = some calls₂ ∧
      endEffectorReports calls₁ = endEffectorReports calls₂ := by
  refine ⟨getCumulativeTransform_eq_of_params M h, ?_⟩
  obtain ⟨calls₁, hc₁, -, -, hE₁⟩ := updateVisualization_eq M c₁ showCommonNormal
  obtain ⟨calls₂, hc₂, -, -, hE₂⟩ := updateVisualization_eq M c₂ showCommonNormal
  have hlen : c₁.length = c₂.length := by
    have := congrArg List.length h
    simpa using this
  refine ⟨calls₁, calls₂, hc₁, hc₂, ?_⟩
  rw [hE₁, hE₂, hlen, prefixProduct_eq_of_params M h]

/-- C11 at a one-joint chain read once as revolute and once as prismatic. -/
theorem jointType_irrelevant_witness :
    ([{ type := "revolute", a := 1, alpha := 0, d := 0, theta := 0 }] : List (Joint ℝ)).map
        Joint.params =
      ([{ type := "prismatic", a := 1, alpha := 0, d := 0, theta := 0 }] : List (Joint ℝ)).map
        Joint.params ∧
    getCumulativeTransform
        (JsMath.mk Real.cos Real.sin (fun y x => Complex.arg ⟨x, y⟩) Real.sqrt Real.pi)
        [{ type := "revolute", a := 1, alpha := 0, d := 0, theta := 0 }] 0 =
      getCumulativeTransform
          (JsMath.mk Real.cos Real.sin (fun y x => Complex.arg ⟨x, y⟩) Real.sqrt Real.pi)
        [{ type := "prismatic", a := 1, alpha := 0, d := 0, theta := 0 }] 0 :=
  ⟨rfl, (jointType_irrelevant
      (JsMath.mk Real.cos Real.sin (fun y x => Complex.arg ⟨x, y⟩) Real.sqrt Real.pi)
      _ _ true rfl).1 0⟩

/-- C12: evaluating the chain of length 0 produces no cumulative transform (the
loop of `updateVisualization` runs zero times: no joint is drawn and no frame
transform is handed on), and the chain of the single joint `a = 0`, `alpha = 0`,
`d = 0`, `theta = 0` has the 4x4 identity as its cumulative transform. -/
theorem identity_chain (showCommonNormal : Bool) (type : String) :
    (updateVisualizationLoop
        (JsMath.mk Real.cos Real.sin (fun y x => Complex.arg ⟨x, y⟩) Real.sqrt Real.pi)
        ([] : List (Joint ℝ)) showCommonNormal
        ([] : List (Joint ℝ)).length = some updateVisualizationInit ∧
      ∃ calls, updateVisualization
          (JsMath.mk Real.cos Real.sin (fun y x => Complex.arg ⟨x, y⟩) Real.sqrt Real.pi)
          ([] : List (Joint ℝ)) showCommonNormal = some calls ∧
        jointPositions calls = [] ∧ frameTransforms calls = []) ∧
    (dhToTransform
        (JsMath.mk Real.cos Real.sin (fun y x => Complex.arg ⟨x, y⟩) Real.sqrt Real.pi)
        0 0 0 0 = identityTransform ∧
      getCumulativeTransform
          (JsMath.mk Real.cos Real.sin (fun y x => Complex.arg ⟨x, y⟩) Real.sqrt Real.pi)
        [{ type := type, a := 0, alpha := 0, d := 0, theta := 0 }] 0 =
        some identityTransform ∧
      ∃ calls, updateVisualization
          (JsMath.mk Real.cos Real.sin (fun y x => Complex.arg ⟨x, y⟩) Real.sqrt Real.pi)
          [{ type := type, a := 0, alpha := 0, d := 0, theta := 0 }] true = some calls ∧
        frameTransforms calls = [identityTransform]) := by
  refine ⟨⟨rfl, _, updateVisualization_nil_eq showCommonNormal, rfl, rfl⟩,
    dhToTransform_zero _ _ _, ?_, ?_⟩
  · have h : getCumulativeTransform
      (JsMath.mk Real.cos Real.sin (fun y x => Complex.arg ⟨x, y⟩) Real.sqrt Real.pi)
        [{ type := type, a := 0, alpha := 0, d := 0, theta := 0 }] 0 =
        some (multiplyMatrices identityTransform (dhToTransform
            (JsMath.mk Real.cos Real.sin (fun y x => Complex.arg ⟨x, y⟩) Real.sqrt Real.pi)
            0 0 0 0)) := rfl
    rw [h, multiplyMatrices_identity, dhToTransform_zero]
  · refine ⟨_, updateVisualization_single _ _, ?_⟩
    simp only [frameTransforms, multiplyMatrices_identity, dhToTransform_zero]

/-- C13: for every chain of real joint parameters and every joint index `i`,
the squared distance between the origin of cumulative frame `i` and the origin
of cumulative frame `i - 1` (the base origin `(0, 0, 0)` for `i = 0`) is
`a_i² + d_i²`, whatever `alpha_i`, `theta_i` and the earlier joints are; so
every link `updateVisualization` draws has length `sqrt (a_i² + d_i²)`. -/
theorem link_length (chain : List (Joint ℝ)) (showCommonNormal : Bool) (i : Nat)
    (hi : i < chain.length) :
    (∃ T prev, getCumulativeTransform
        (JsMath.mk Real.cos Real.sin (fun y x => Complex.arg ⟨x, y⟩) Real.sqrt Real.pi)
        chain i = some T ∧
      (match i with
        | 0 => some (0, 0, 0)
        | k + 1 => (getCumulativeTransform
            (JsMath.mk Real.cos Real.sin (fun y x => Complex.arg ⟨x, y⟩) Real.sqrt Real.pi)
            chain k).map origin) = some prev ∧
      sqDist prev (origin T) = (chain[i]).a ^ 2 + (chain[i]).d ^ 2) ∧
    ∃ calls, updateVisualization
        (JsMath.mk Real.cos Real.sin (fun y x => Complex.arg ⟨x, y⟩) Real.sqrt Real.pi)
        chain showCommonNormal = some calls ∧
      (linkSegments calls).map (fun p => sqDist p.1 p.2) =
        chain.tail.map (fun j => j.a ^ 2 + j.d ^ 2) ∧
      (linkSegments calls).map (fun p => Real.sqrt (sqDist p.1 p.2)) =
        chain.tail.map (fun j => Real.sqrt (j.a ^ 2 + j.d ^ 2)) := by
  have hM : ∀ t : ℝ, Real.cos t ^ 2 + Real.sin t ^ 2 = 1 := Real.cos_sq_add_sin_sq
  have hstep := sqDist_prefixProduct
      (JsMath.mk Real.cos Real.sin (fun y x => Complex.arg ⟨x, y⟩) Real.sqrt Real.pi)
      chain hM
  constructor
  · refine ⟨_, origin (Mat4.ofMatrix (prefixProduct
      (JsMath.mk Real.cos Real.sin (fun y x => Complex.arg ⟨x, y⟩) Real.sqrt Real.pi)
      chain i)),
      getCumulativeTransform_eq _ chain i hi, ?_, hstep i hi⟩
    cases i with
    | zero => rw [prefixProduct_zero]; rfl
    | succ k =>
      show Option.map origin (getCumulativeTransform _ chain k) = _
      rw [getCumulativeTransform_eq _ chain k (by omega)]
      rfl
  · obtain ⟨calls, hc, hL, -⟩ := updateVisualization_eq
      (JsMath.mk Real.cos Real.sin (fun y x => Complex.arg ⟨x, y⟩) Real.sqrt Real.pi)
      chain showCommonNormal
    have hsq : (linkSegments calls).map (fun p => sqDist p.1 p.2) =
        chain.tail.map (fun j => j.a ^ 2 + j.d ^ 2) := by
      rw [hL, List.map_map]
      apply List.ext_getElem
      · simp
      · intro k h₁ h₂
        have hk : k + 1 < chain.length := by
          simp only [List.length_map, List.length_range] at h₁
          omega
        simp only [List.getElem_map, List.getElem_range, Function.comp_apply,
          List.getElem_tail]
        exact hstep (k + 1) hk
    refine ⟨calls, hc, hsq, ?_⟩
    have := congrArg (List.map Real.sqrt) hsq
    simpa [List.map_map, Function.comp] using this

/-- C13 at the chain installed by `init`, index 1: the two frame origins are 1
apart. -/
theorem link_length_witness :
    1 < (init (initialState : AppState ℝ)).dhParams.length ∧
    ∃ calls, updateVisualization
        (JsMath.mk Real.cos Real.sin (fun y x => Complex.arg ⟨x, y⟩) Real.sqrt Real.pi)
        (init (initialState : AppState ℝ)).dhParams true =
        some calls ∧
      (linkSegments calls).map (fun p => sqDist p.1 p.2) = [1] := by
  refine ⟨by simp [init], ?_⟩
  obtain ⟨calls, hc, hsq, -⟩ :=
    (link_length (init (initialState : AppState ℝ)).dhParams true 1 (by simp [init])).2
  refine ⟨calls, hc, ?_⟩
  rw [hsq]
  simp [init]

/-- C14: for all real `a` and `d` and all `alpha`, `theta` in `(-pi, pi]`, the
pose `updateEndEffectorInfo` reads off the single-joint transform
`dhToTransform(a, alpha, d, theta)` (before the display rounding) is the
position `(a cos theta, a sin theta, d)` with roll `alpha`, pitch `0` and yaw
`theta`. -/
theorem pose_of_single_joint (a alpha d theta : ℝ)
    (hα : -Real.pi < alpha ∧ alpha ≤ Real.pi) (hθ : -Real.pi < theta ∧ theta ≤ Real.pi) :
    updateEndEffectorInfo
        (JsMath.mk Real.cos Real.sin (fun y x => Complex.arg ⟨x, y⟩) Real.sqrt Real.pi)
        (dhToTransform
            (JsMath.mk Real.cos Real.sin (fun y x => Complex.arg ⟨x, y⟩) Real.sqrt Real.pi)
            a alpha d theta) =
      { x := a * Real.cos theta, y := a * Real.sin theta, z := d,
        roll := alpha, pitch := 0, yaw := theta,
        matrix := dhToTransform
            (JsMath.mk Real.cos Real.sin (fun y x => Complex.arg ⟨x, y⟩) Real.sqrt Real.pi)
            a alpha d theta } := by
  have hs : Real.sqrt (Real.sin alpha ^ 2 + Real.cos alpha ^ 2) = 1 := by
    rw [Real.sin_sq_add_cos_sq, Real.sqrt_one]
  simp only [updateEndEffectorInfo, dhToTransform, Mat4.get, Mat4.row, Row4.get]
  rw [hs, neg_zero, arg_mk_one_zero, arg_mk_cos_sin alpha hα, arg_mk_cos_sin theta hθ]

/-- C14 at `a = 1`, `alpha = 0`, `d = 0`, `theta = pi`: the yaw read back is
`pi`. -/
theorem pose_of_single_joint_witness :
    (-Real.pi < (0 : ℝ) ∧ (0 : ℝ) ≤ Real.pi) ∧ (-Real.pi < Real.pi ∧ Real.pi ≤ Real.pi) ∧
    (updateEndEffectorInfo
        (JsMath.mk Real.cos Real.sin (fun y x => Complex.arg ⟨x, y⟩) Real.sqrt Real.pi)
        (dhToTransform
            (JsMath.mk Real.cos Real.sin (fun y x => Complex.arg ⟨x, y⟩) Real.sqrt Real.pi)
            1 0 0 Real.pi)).yaw = Real.pi := by
  have h0 : -Real.pi < (0 : ℝ) ∧ (0 : ℝ) ≤ Real.pi :=
    ⟨neg_lt_zero.mpr Real.pi_pos, Real.pi_pos.le⟩
  have hp : -Real.pi < Real.pi ∧ Real.pi ≤ Real.pi :=
    ⟨by linarith [Real.pi_pos], le_rfl⟩
  refine ⟨h0, hp, ?_⟩
  rw [pose_of_single_joint 1 0 0 Real.pi h0 hp]

end DHVisualizer
